import Mathlib

/-!
# Mao game server: the session engine of `src/server.js`

A shallow embedding of the `Game` class (lines 48-330 of `src/server.js`), of
the maps `games` and `playerSockets` with the handlers of `createParty`,
`joinParty` and `startGame` (lines 353-434) and the guard of the chat handler
(line 598), and theorems about them.

Modelling conventions.

* JavaScript arrays are Lean lists; `push` appends at the end, `pop` takes the
  last element, `unshift` conses at the front and `shift` removes the head.
* `Math.random` and `Date.now` are explicit inputs: a shuffle takes a function
  `rnd : Nat → Nat`, where `rnd i % (i + 1)` stands for
  `Math.floor(Math.random() * (i + 1))`, and time stamps are arguments.
* A method that reads `.name` of an undefined current player throws a
  `TypeError`; such a method returns an `Option` and `none` is the throw.  These
  throws happen before the first write to the session.  The third argument of
  `playCard` is taken to be an object, as its default `{}` is.
* `null` and `undefined` are `none`.  A string is truthy when it is not empty.
-/

namespace Mao

/-! ## Data model -/

/-- The constant `SUITS` (line 38). -/
def SUITS : List String := ["hearts", "diamonds", "clubs", "spades"]

/-- The constant `RANKS` (line 39). -/
def RANKS : List String :=
  ["A", "2", "3", "4", "5", "6", "7", "8", "9", "10", "J", "Q", "K"]

/-- The class `Card` (lines 41-46). -/
structure Card where
  suit : String
  rank : String
deriving DecidableEq, Repr

/-- A roster entry, as built by the constructor and by `addPlayer`. -/
structure Player where
  name : String
  isHost : Bool
  socketId : Option String
  hand : List Card
  cardCount : Nat
deriving DecidableEq, Repr

/-- A record of `penaltyLog` (lines 264-269). -/
structure Penalty where
  giver : String
  receiver : String
  reason : String
  timestamp : Nat
deriving DecidableEq, Repr

/-- A record of `customRules` (lines 294-298). -/
structure CustomRule where
  creator : String
  rule : String
  timestamp : Nat
deriving DecidableEq, Repr

/-- The fields of a `Game` object (lines 49-69). -/
structure Game where
  roomCode : String
  players : List Player
  deck : List Card
  discardPile : List Card
  currentPlayerIndex : Nat
  gameActive : Bool
  customRules : List CustomRule
  penaltyLog : List Penalty
  pointOfOrderActive : Bool
  pointOfOrderCaller : Option String
  chatMuted : Bool
  declaredSuit : Option String
  createdAt : Nat
deriving DecidableEq, Repr

/-- The object a method returns: `success` and the optional fields `error`,
`winner`, `card` and `penalty`. -/
structure Result where
  success : Bool
  error : Option String
  winner : Option String
  card : Option Card
  penalty : Option Penalty
deriving DecidableEq, Repr

/-- The result `{ success: false, error }`. -/
def Result.fail (error : String) : Result :=
  ⟨false, some error, none, none, none⟩

/-- The result `{ success: true }`. -/
def Result.ok : Result :=
  ⟨true, none, none, none, none⟩

/-- The third argument of `playCard`, an object (the parameter's default is
`{}`) whose field `declaredSuit` may be absent. -/
structure SpecialData where
  declaredSuit : Option String
deriving DecidableEq, Repr

/-- JavaScript truthiness of a value that is `null`, `undefined` or a string. -/
def truthy : Option String → Bool
  | none => false
  | some s => s != ""

/-! ## The engine -/

/-- The constructor of `Game` (lines 49-69); `now` is `Date.now()`. -/
def Game.new (roomCode hostName : String) (now : Nat) : Game where
  roomCode := roomCode
  players := [⟨hostName, true, none, [], 0⟩]
  deck := []
  discardPile := []
  currentPlayerIndex := 0
  gameActive := false
  customRules := []
  penaltyLog := []
  pointOfOrderActive := false
  pointOfOrderCaller := none
  chatMuted := true
  declaredSuit := none
  createdAt := now

/-- The method `addPlayer` (lines 71-89). -/
def addPlayer (g : Game) (playerName : String) (socketId : Option String) :
    Result × Game :=
  if g.players.length ≥ 10 then (Result.fail "Room is full", g)
  else if g.players.any (fun p => p.name == playerName) then
    (Result.fail "Name already taken", g)
  else
    (Result.ok, { g with players := g.players ++ [⟨playerName, false, socketId, [], 0⟩] })

/-- The assignment `this.players[0].isHost = true` (line 100). -/
def makeFirstHost : List Player → List Player
  | [] => []
  | p :: ps => { p with isHost := true } :: ps

/-- The method `removePlayer` (lines 91-104).  The index that `findIndex`
returns is in range, so the lookup of line 95 finds a player. -/
def removePlayer (g : Game) (socketId : Option String) : Bool × Game :=
  match g.players.findIdx? (fun p => p.socketId == socketId) with
  | none => (false, g)
  | some playerIndex =>
    match g.players[playerIndex]? with
    | none => (false, g)
    | some player =>
      let players := g.players.eraseIdx playerIndex
      if player.isHost && players.length > 0 then
        (true, { g with players := makeFirstHost players })
      else
        (true, { g with players := players })

/-- The destructuring swap of line 119: positions `i` and `j` exchange their
elements. -/
def swap (deck : List Card) (i j : Nat) : List Card :=
  match deck[i]?, deck[j]? with
  | some a, some b => (deck.set i b).set j a
  | _, _ => deck

/-- The loop of `shuffleDeck` from index `i` down to 1. -/
def shuffleLoop (rnd : Nat → Nat) : Nat → List Card → List Card
  | 0, deck => deck
  | i + 1, deck => shuffleLoop rnd i (swap deck (i + 1) (rnd (i + 1) % (i + 2)))

/-- The method `shuffleDeck` (lines 116-121) on the deck. -/
def shuffleDeck (rnd : Nat → Nat) (deck : List Card) : List Card :=
  shuffleLoop rnd (deck.length - 1) deck

/-- The two nested loops of `generateDeck` (lines 107-112), before the shuffle. -/
def freshDeck : List Card :=
  SUITS.foldl (fun deck suit => RANKS.foldl (fun deck rank => deck ++ [⟨suit, rank⟩]) deck) []

/-- The method `generateDeck` (lines 106-114). -/
def generateDeck (g : Game) (rnd : Nat → Nat) : Game :=
  { g with deck := shuffleDeck rnd freshDeck }

/-- The inner loop of `dealCards` (lines 128-132): `n` rounds, each pushing the
popped last card of the deck onto the hand when the deck is not empty. -/
def dealHand : Nat → List Card → List Card → List Card × List Card
  | 0, hand, deck => (hand, deck)
  | n + 1, hand, deck =>
    match deck.getLast? with
    | some c => dealHand n (hand ++ [c]) deck.dropLast
    | none => dealHand n hand deck

/-- The outer loop of `dealCards` (lines 126-134) over the roster. -/
def dealPlayers : List Player → List Card → List Player × List Card
  | [], deck => ([], deck)
  | p :: ps, deck =>
    let r := dealHand 4 [] deck
    let rest := dealPlayers ps r.2
    ({ p with hand := r.1, cardCount := r.1.length } :: rest.1, rest.2)

/-- The method `dealCards` (lines 123-140). -/
def dealCards (g : Game) : Game :=
  let r := dealPlayers g.players g.deck
  match r.2.getLast? with
  | some c => { g with players := r.1, deck := r.2.dropLast, discardPile := [c] }
  | none => { g with players := r.1, deck := r.2 }

/-- The method `startGame` (lines 142-154). -/
def startGame (g : Game) (rnd : Nat → Nat) : Result × Game :=
  if g.players.length < 2 then (Result.fail "Need at least 2 players", g)
  else
    let g1 := dealCards (generateDeck g rnd)
    (Result.ok, { g1 with currentPlayerIndex := 0, gameActive := true, chatMuted := true })

/-- The method `getCurrentPlayer` (lines 156-158); `none` is `undefined`. -/
def getCurrentPlayer (g : Game) : Option Player :=
  g.players[g.currentPlayerIndex]?

/-- The method `getNextPlayerIndex` (lines 160-162). -/
def getNextPlayerIndex (g : Game) : Nat :=
  (g.currentPlayerIndex + 1) % g.players.length

/-- The method `nextTurn` (lines 164-166). -/
def nextTurn (g : Game) : Game :=
  { g with currentPlayerIndex := getNextPlayerIndex g }

/-- The expression `this.declaredSuit || topCard.suit` (line 174). -/
def effectiveSuit (declaredSuit : Option String) (topSuit : String) : String :=
  match declaredSuit with
  | some s => if s != "" then s else topSuit
  | none => topSuit

/-- The method `canPlayCard` (lines 168-179); `none` is the `TypeError` of
reading `.name` of an undefined current player. -/
def canPlayCard (g : Game) (player : Player) (card : Card) : Option Bool :=
  if !g.gameActive then some false
  else
    match getCurrentPlayer g with
    | none => none
    | some current =>
      if current.name != player.name then some false
      else
        match g.discardPile with
        | [] => some false
        | topCard :: _ =>
          some (card.suit == effectiveSuit g.declaredSuit topCard.suit
            || card.rank == topCard.rank || card.rank == "J")

/-- The predicate `c => c.suit === card.suit && c.rank === card.rank` of lines
185 and 193. -/
def sameCard (card c : Card) : Bool :=
  c.suit == card.suit && c.rank == card.rank

/-- Writing through the reference that `players.find` returned: the first
roster entry that satisfies `q` is replaced by its image under `f`. -/
def updateFirst (q : Player → Bool) (f : Player → Player) : List Player → List Player
  | [] => []
  | p :: ps => if q p then f p :: ps else p :: updateFirst q f ps

/-- The predicate `p => p.name === playerName`. -/
def named (playerName : String) (p : Player) : Bool :=
  p.name == playerName

/-- Lines 192-204 of `playCard`, the writes of a legal play by `player`, the
roster entry found by name: the matching cards leave the hand, the card goes on
top of the discard pile, and the declared suit is set or cleared. -/
def afterPlay (g : Game) (playerName : String) (card : Card) (specialData : SpecialData)
    (player : Player) : Game :=
  let hand := player.hand.filter (fun c => !sameCard card c)
  { g with
    players := updateFirst (named playerName)
      (fun p => { p with hand := hand, cardCount := hand.length }) g.players
    discardPile := card :: g.discardPile
    declaredSuit :=
      if card.rank == "J" && truthy specialData.declaredSuit then
        specialData.declaredSuit
      else none }

/-- The method `playCard` (lines 181-215); `none` is the `TypeError` thrown by
`canPlayCard`. -/
def playCard (g : Game) (playerName : String) (card : Card) (specialData : SpecialData) :
    Option (Result × Game) :=
  match g.players.find? (named playerName) with
  | none => some (Result.fail "Player not found", g)
  | some player =>
    match player.hand.find? (sameCard card) with
    | none => some (Result.fail "Card not in hand", g)
    | some _ =>
      match canPlayCard g player card with
      | none => none
      | some false => some (Result.fail "Cannot play this card", g)
      | some true =>
        let g1 := afterPlay g playerName card specialData player
        if (player.hand.filter (fun c => !sameCard card c)).length == 0 then
          some ({ Result.ok with winner := some playerName }, g1)
        else
          some (Result.ok, nextTurn g1)

/-- The reshuffle of lines 231-234 (and 252-255): the top discard card stays,
the others become the shuffled deck.  Both callers run it only when the discard
pile has more than one card. -/
def reshuffle (g : Game) (rnd : Nat → Nat) : Game :=
  match g.discardPile with
  | [] => g
  | topCard :: rest => { g with deck := shuffleDeck rnd rest, discardPile := [topCard] }

/-- Lines 237-239 (and 260-261): the popped last card of the deck is pushed
onto the hand of the first roster entry named `playerName`. -/
def giveCard (g : Game) (playerName : String) (drawnCard : Card) : Game :=
  { g with
    deck := g.deck.dropLast
    players := updateFirst (named playerName)
      (fun p => { p with hand := p.hand ++ [drawnCard], cardCount := p.hand.length + 1 })
      g.players }

/-- The method `drawCard` (lines 217-242); `none` is the `TypeError` of
reading `.name` of an undefined current player, and of the unreachable pop of
an empty deck. -/
def drawCard (g : Game) (playerName : String) (rnd : Nat → Nat) : Option (Result × Game) :=
  match g.players.find? (named playerName) with
  | none => some (Result.fail "Player not found", g)
  | some _ =>
    match getCurrentPlayer g with
    | none => none
    | some current =>
      if current.name != playerName then some (Result.fail "Not your turn", g)
      else if g.deck.length == 0 && g.discardPile.length ≤ 1 then
        some (Result.fail "No cards available", g)
      else
        let g1 := if g.deck.length == 0 then reshuffle g rnd else g
        match g1.deck.getLast? with
        | none => none
        | some drawnCard =>
          some ({ Result.ok with card := some drawnCard }, giveCard g1 playerName drawnCard)

/-- The method `givePenalty` (lines 244-273); `now` is `Date.now()`. -/
def givePenalty (g : Game) (giver receiver reason : String) (now : Nat) (rnd : Nat → Nat) :
    Result × Game :=
  match g.players.find? (named receiver) with
  | none => (Result.fail "Player not found", g)
  | some _ =>
    let g1 := if g.deck.length == 0 && g.discardPile.length > 1 then reshuffle g rnd else g
    let g2 :=
      match g1.deck.getLast? with
      | some c => giveCard g1 receiver c
      | none => g1
    let penalty : Penalty := ⟨giver, receiver, reason, now⟩
    ({ Result.ok with penalty := some penalty }, { g2 with penaltyLog := g2.penaltyLog ++ [penalty] })

/-- The method `callPointOfOrder` (lines 275-283). -/
def callPointOfOrder (g : Game) (playerName : String) : Result × Game :=
  if g.pointOfOrderActive then (Result.fail "Point of Order already active", g)
  else
    (Result.ok,
      { g with pointOfOrderActive := true, pointOfOrderCaller := some playerName,
               chatMuted := false })

/-- The method `endPointOfOrder` (lines 285-291). -/
def endPointOfOrder (g : Game) : Result × Game :=
  (Result.ok,
    { g with pointOfOrderActive := false, pointOfOrderCaller := none, chatMuted := true })

/-- The method `addCustomRule` (lines 293-301); `now` is `Date.now()`. -/
def addCustomRule (g : Game) (creator rule : String) (now : Nat) : Result × Game :=
  (Result.ok, { g with customRules := g.customRules ++ [⟨creator, rule, now⟩] })

/-! ## Reachable sessions -/

/-- A call of one of the engine's operations, with its arguments. -/
inductive Op where
  | addPlayer (playerName : String) (socketId : Option String)
  | removePlayer (socketId : Option String)
  | startGame (rnd : Nat → Nat)
  | playCard (playerName : String) (card : Card) (specialData : SpecialData)
  | drawCard (playerName : String) (rnd : Nat → Nat)
  | givePenalty (giver receiver reason : String) (now : Nat) (rnd : Nat → Nat)
  | callPointOfOrder (playerName : String)
  | endPointOfOrder
  | addCustomRule (creator rule : String) (now : Nat)

/-- The session after a call; a call that throws leaves the session as it was. -/
def step (g : Game) : Op → Game
  | .addPlayer playerName socketId => (addPlayer g playerName socketId).2
  | .removePlayer socketId => (removePlayer g socketId).2
  | .startGame rnd => (startGame g rnd).2
  | .playCard playerName card specialData =>
    match playCard g playerName card specialData with
    | some r => r.2
    | none => g
  | .drawCard playerName rnd =>
    match drawCard g playerName rnd with
    | some r => r.2
    | none => g
  | .givePenalty giver receiver reason now rnd => (givePenalty g giver receiver reason now rnd).2
  | .callPointOfOrder playerName => (callPointOfOrder g playerName).2
  | .endPointOfOrder => (endPointOfOrder g).2
  | .addCustomRule creator rule now => (addCustomRule g creator rule now).2

/-- The calls that are `removePlayer`. -/
def Op.isRemovePlayer : Op → Bool
  | .removePlayer _ => true
  | _ => false

/-- The sessions that a sequence of calls, each satisfying `allowed`, produces
from a newly constructed session. -/
inductive ReachableVia (allowed : Op → Prop) : Game → Prop where
  | new (roomCode hostName : String) (now : Nat) :
      ReachableVia allowed (Game.new roomCode hostName now)
  | step {g : Game} (op : Op) : ReachableVia allowed g → allowed op →
      ReachableVia allowed (step g op)

/-- The sessions reachable from a newly constructed one by any calls. -/
def Reachable (g : Game) : Prop :=
  ReachableVia (fun _ => True) g

/-- The cards of all hands, in roster order. -/
def handCards (players : List Player) : List Card :=
  (players.map (fun p => p.hand)).flatten

/-- The cards of the deck, the discard pile and all hands. -/
def allCards (g : Game) : List Card :=
  g.deck ++ g.discardPile ++ handCards g.players

/-- The sum `|deck| + |discardPile| + Σ|hands|`. -/
def totalCards (g : Game) : Nat :=
  g.deck.length + g.discardPile.length + (g.players.map (fun p => p.hand.length)).sum

/-! ## Concrete sessions -/

/-- A player holding the three of hearts and the jack of spades. -/
def alice : Player := ⟨"alice", true, none, [⟨"hearts", "3"⟩, ⟨"spades", "J"⟩], 2⟩

/-- A player holding the king of clubs. -/
def bob : Player := ⟨"bob", false, some "s2", [⟨"clubs", "K"⟩], 1⟩

/-- A session in play: alice to move, the five of hearts on top of the discard
pile, two cards in the deck. -/
def midGame : Game where
  roomCode := "ROOM01"
  players := [alice, bob]
  deck := [⟨"diamonds", "9"⟩, ⟨"clubs", "2"⟩]
  discardPile := [⟨"hearts", "5"⟩]
  currentPlayerIndex := 0
  gameActive := true
  customRules := []
  penaltyLog := []
  pointOfOrderActive := false
  pointOfOrderCaller := none
  chatMuted := true
  declaredSuit := none
  createdAt := 0

/-- The session `midGame` with an empty deck and three cards on the discard
pile. -/
def drawnOut : Game :=
  { midGame with
    deck := []
    discardPile := [⟨"hearts", "5"⟩, ⟨"diamonds", "9"⟩, ⟨"clubs", "2"⟩] }

/-- The session `midGame` with an empty deck: one discard card is all that is
left. -/
def stuck : Game :=
  { midGame with deck := [] }

/-- Random draws that make every swap of the shuffle exchange a position with
itself: `j = i` at every step. -/
def noSwap : Nat → Nat := fun i => i

/-- A newly constructed session with host alice. -/
def lobby : Game := Game.new "ROOM01" "alice" 0

/-- The lobby after bob has joined. -/
def twoPlayers : Game := step lobby (.addPlayer "bob" (some "s2"))

/-- The two-player session after `startGame`, with a shuffle that leaves the
fresh deck in order: alice holds K, Q, J, 10 of spades, bob holds 9, 8, 7, 6 of
spades, and the five of spades is the discard pile. -/
def started : Game := step twoPlayers (.startGame noSwap)

/-- The started session after alice has played the jack of spades and declared
hearts. -/
def jackDeclared : Game :=
  step started (.playCard "alice" ⟨"spades", "J"⟩ ⟨some "hearts"⟩)

/-- The started session after bob's connection has been removed. -/
def afterLeave : Game := step started (.removePlayer (some "s2"))

/-! ## State projection -/

/-- A player summary of `getPublicGameState` (lines 314-318). -/
structure PlayerSummary where
  name : String
  isHost : Bool
  cardCount : Nat
deriving DecidableEq, Repr

/-- The object that `getPublicGameState` returns (lines 312-328). -/
structure PublicGameState where
  roomCode : String
  players : List PlayerSummary
  currentPlayer : Option String
  discardPile : List Card
  gameActive : Bool
  penaltyLog : List Penalty
  pointOfOrderActive : Bool
  pointOfOrderCaller : Option String
  chatMuted : Bool
  declaredSuit : Option String
  customRuleCount : Nat
deriving DecidableEq, Repr

/-- The object that `getPlayerData` returns for a player on the roster (lines
305-308). -/
structure PlayerData where
  hand : List Card
  cardCount : Nat
deriving DecidableEq, Repr

/-- The method `getPlayerData` (lines 303-309); `none` is `null`. -/
def getPlayerData (g : Game) (playerName : String) : Option PlayerData :=
  match g.players.find? (named playerName) with
  | some player => some ⟨player.hand, player.cardCount⟩
  | none => none

/-- The method `getPublicGameState` (lines 311-329); the current player's name
is read with `?.`, so it is `undefined` when there is no current player. -/
def getPublicGameState (g : Game) : PublicGameState where
  roomCode := g.roomCode
  players := g.players.map (fun p => ⟨p.name, p.isHost, p.cardCount⟩)
  currentPlayer := (getCurrentPlayer g).map (fun p => p.name)
  discardPile := g.discardPile
  gameActive := g.gameActive
  penaltyLog := g.penaltyLog
  pointOfOrderActive := g.pointOfOrderActive
  pointOfOrderCaller := g.pointOfOrderCaller
  chatMuted := g.chatMuted
  declaredSuit := g.declaredSuit
  customRuleCount := g.customRules.length

/-- Two roster entries that agree on every field except the cards of the hand. -/
def Player.sameButHand (p q : Player) : Prop :=
  p.name = q.name ∧ p.isHost = q.isHost ∧ p.socketId = q.socketId ∧
    p.cardCount = q.cardCount

/-- Two sessions that agree on every field except the cards in the players'
hands and the cards in the deck. -/
def Game.sameButHiddenCards (g h : Game) : Prop :=
  g.roomCode = h.roomCode ∧ List.Forall₂ Player.sameButHand g.players h.players ∧
    g.discardPile = h.discardPile ∧ g.currentPlayerIndex = h.currentPlayerIndex ∧
    g.gameActive = h.gameActive ∧ g.customRules = h.customRules ∧
    g.penaltyLog = h.penaltyLog ∧ g.pointOfOrderActive = h.pointOfOrderActive ∧
    g.pointOfOrderCaller = h.pointOfOrderCaller ∧ g.chatMuted = h.chatMuted ∧
    g.declaredSuit = h.declaredSuit ∧ g.createdAt = h.createdAt

/-- The session `midGame` with other cards in the hands and in the deck. -/
def midGameOtherCards : Game :=
  { midGame with
    players :=
      [{ alice with hand := [⟨"clubs", "7"⟩, ⟨"diamonds", "Q"⟩] },
       { bob with hand := [⟨"hearts", "A"⟩] }]
    deck := [⟨"spades", "4"⟩] }

/-- The session `jackDeclared`, in which it is bob's turn (index 1), after bob's
connection has been removed: alice is alone on the roster. -/
def leftDuringPlay : Game := step jackDeclared (.removePlayer (some "s2"))

/-- The sessions that a sequence of calls produces from a newly constructed
session when every call is made on a session that satisfies `alive`. -/
inductive ReachableWhile (alive : Game → Prop) : Game → Prop where
  | new (roomCode hostName : String) (now : Nat) :
      ReachableWhile alive (Game.new roomCode hostName now)
  | step {g : Game} (op : Op) : ReachableWhile alive g → alive g →
      ReachableWhile alive (step g op)

/-- The number of roster entries with `isHost` true. -/
def hostCount (g : Game) : Nat :=
  g.players.countP (fun p => p.isHost)

/-- The lobby after the host's entry, whose `socketId` is still `null`, has been
removed and bob has joined. -/
def hostless : Game :=
  step (step lobby (.removePlayer none)) (.addPlayer "bob" (some "s2"))

/-- The first roster entry is the host and no other entry is. -/
def HostFirst : List Player → Prop
  | [] => True
  | p :: ps => p.isHost = true ∧ ∀ q ∈ ps, q.isHost = false

/-! ## The room registry and the connection registry -/

/-- A value of the map `playerSockets` (lines 360 and 385). -/
structure Conn where
  roomCode : String
  playerName : String
deriving DecidableEq, Repr

/-- `Map.prototype.set` on a map kept as the list of its entries in insertion
order: the value of an existing key is replaced in place, a new key is appended. -/
def mapSet {α : Type} (m : List (String × α)) (k : String) (v : α) : List (String × α) :=
  if m.any (fun e => e.1 == k) then m.map (fun e => if e.1 == k then (k, v) else e)
  else m ++ [(k, v)]

/-- `Map.prototype.get`; `none` is `undefined`. -/
def mapGet {α : Type} (m : List (String × α)) (k : String) : Option α :=
  (m.find? (fun e => e.1 == k)).map (fun e => e.2)

/-- The two process-wide maps `games` and `playerSockets` (lines 34-35). -/
structure Server where
  games : List (String × Game)
  playerSockets : List (String × Conn)

/-- What a handler emits to the requesting socket, with the hands it sends to
other sockets. -/
inductive Reply where
  | partyCreated (roomCode : String) (players : List (String × Bool))
  | partyJoined (roomCode : String) (players : List (String × Bool))
  | gameStarted (hands : List (String × List Card))
  | error (message : String)
  | silent
deriving DecidableEq, Repr

/-- The assignment `game.players[0].socketId = socket.id` (line 358). -/
def setHostSocket (g : Game) (socketId : String) : Game :=
  match g.players with
  | [] => g
  | p :: ps => { g with players := { p with socketId := some socketId } :: ps }

/-- The handler of `createParty` (lines 353-370); `roomCode` is the value of
`generateRoomCode()` and `now` is `Date.now()`. -/
def createParty (srv : Server) (socketId playerName roomCode : String) (now : Nat) :
    Reply × Server :=
  let game := setHostSocket (Game.new roomCode playerName now) socketId
  (.partyCreated roomCode (game.players.map (fun p => (p.name, p.isHost))),
    { games := mapSet srv.games roomCode game
      playerSockets := mapSet srv.playerSockets socketId ⟨roomCode, playerName⟩ })

/-- The handler of `joinParty` (lines 372-399). -/
def joinParty (srv : Server) (socketId playerName roomCode : String) : Reply × Server :=
  match mapGet srv.games roomCode with
  | none => (.error "Room not found", srv)
  | some game =>
    let result := addPlayer game playerName (some socketId)
    if !result.1.success then (.error (result.1.error.getD ""), srv)
    else
      (.partyJoined roomCode (result.2.players.map (fun p => (p.name, p.isHost))),
        { games := mapSet srv.games roomCode result.2
          playerSockets := mapSet srv.playerSockets socketId ⟨roomCode, playerName⟩ })

/-- The socket that the hand fan-out selects for a player name (lines 422-423,
458-459, 476-477 and 530-531): the key of the first entry of `playerSockets`
whose `playerName` is the name. -/
def handSocket (playerSockets : List (String × Conn)) (playerName : String) : Option String :=
  (playerSockets.find? (fun e => e.2.playerName == playerName)).map (fun e => e.1)

/-- The loop of lines 421-431 (and 457-466, 475-484): each player's hand goes to
the socket selected for the player's name, when there is one. -/
def handFanOut (playerSockets : List (String × Conn)) (game : Game) :
    List (String × List Card) :=
  game.players.filterMap
    (fun p => (handSocket playerSockets p.name).map (fun s => (s, p.hand)))

/-- The handler of `startGame` (lines 401-434) for the request of `socketId`. -/
def startGameHandler (srv : Server) (socketId : String) (rnd : Nat → Nat) : Reply × Server :=
  match mapGet srv.playerSockets socketId with
  | none => (.silent, srv)
  | some playerData =>
    match mapGet srv.games playerData.roomCode with
    | none => (.silent, srv)
    | some game =>
      match game.players.find? (named playerData.playerName) with
      | none => (.error "Only host can start the game", srv)
      | some player =>
        if !player.isHost then (.error "Only host can start the game", srv)
        else
          let result := startGame game rnd
          if !result.1.success then (.error (result.1.error.getD ""), srv)
          else
            (.gameStarted (handFanOut srv.playerSockets result.2),
              { srv with games := mapSet srv.games playerData.roomCode result.2 })

/-- The server before any connection. -/
def emptyServer : Server := ⟨[], []⟩

/-- The server after socket `s1` has created room `AAAAAA` as alice. -/
def oneRoom : Server := (createParty emptyServer "s1" "alice" "AAAAAA" 0).2

/-- The server after socket `s2` has created room `BBBBBB`, also as alice, and
socket `s3` has joined that room as bob. -/
def twoRooms : Server :=
  (joinParty (createParty oneRoom "s2" "alice" "BBBBBB" 1).2 "s3" "bob" "BBBBBB").2

/-! ## Choice sequences of the shuffle -/

/-- A choice sequence for a deck of `n` cards: for each loop index `i` from
`n - 1` down to 1 an index `j` with `0 ≤ j ≤ i`; the entry `k` is the choice of
the loop index `k + 1`. -/
def Choices (n : Nat) : Type :=
  (k : Fin (n - 1)) → Fin (k.val + 2)

/-- There are finitely many choice sequences. -/
instance Choices.fintype (n : Nat) : Fintype (Choices n) :=
  inferInstanceAs (Fintype ((k : Fin (n - 1)) → Fin (k.val + 2)))

/-- The random draws that a choice sequence stands for: at the loop index `i`
its entry `i - 1`. -/
def Choices.rnd {n : Nat} (c : Choices n) : Nat → Nat :=
  fun i => if h : i - 1 < n - 1 then (c ⟨i - 1, h⟩).val else 0

/-! ## Chat mute and point of order -/

/-- The calls that are `startGame`. -/
def Op.isStartGame : Op → Bool
  | .startGame _ => true
  | _ => false

/-- The sessions that a sequence of calls produces from a newly constructed
session when every call `op` is made on a session `g` with `ok g op`. -/
inductive ReachableBy (ok : Game → Op → Prop) : Game → Prop where
  | new (roomCode hostName : String) (now : Nat) :
      ReachableBy ok (Game.new roomCode hostName now)
  | step {g : Game} (op : Op) : ReachableBy ok g → ok g op →
      ReachableBy ok (step g op)

/-- The guard of the handler of `chatMessage` (line 598): the message is refused
when chat is muted and no point of order is open. -/
def chatBlocked (g : Game) : Bool :=
  g.chatMuted && !g.pointOfOrderActive

/-- The session `twoPlayers` after bob has called a point of order. -/
def orderCalled : Game := step twoPlayers (.callPointOfOrder "bob")

/-- The session `orderCalled` after `startGame`: the point of order is still
open. -/
def startedDuringOrder : Game := step orderCalled (.startGame noSwap)

/-! ## Sessions that keep their cards -/

/-- A newly created session: as the constructor returns it, or as `createParty`
stores it, with the host's `socketId` set (line 358). -/
def Created (g : Game) : Prop :=
  (∃ roomCode hostName now, g = Game.new roomCode hostName now) ∨
  (∃ roomCode hostName now socketId,
    g = setHostSocket (Game.new roomCode hostName now) socketId)

/-- The sessions that any sequence of calls produces from a newly created
session. -/
inductive ReachableFromCreated : Game → Prop where
  | created {g : Game} : Created g → ReachableFromCreated g
  | step {g : Game} (op : Op) : ReachableFromCreated g → ReachableFromCreated (step g op)

/-- The hand of the roster entry that `removePlayer(socketId)` removes; empty
when it removes nobody. -/
def removedHand (g : Game) (socketId : Option String) : List Card :=
  match g.players.findIdx? (fun p => p.socketId == socketId) with
  | none => []
  | some playerIndex =>
    match g.players[playerIndex]? with
    | none => []
    | some player => player.hand

/-- The call removes no player who holds cards: it is not `removePlayer`, or the
game has not been started, or the removed roster entry has an empty hand. -/
def keepsCards (g : Game) (op : Op) : Prop :=
  ∀ socketId, op = .removePlayer socketId →
    g.gameActive = false ∨ removedHand g socketId = []

/-- The sessions reached from a newly created session by a sequence of calls in
which, since the last successful `startGame` (or since the creation),
`removePlayer` has removed no player who holds cards. -/
inductive CardsKept : Game → Prop where
  | created {g : Game} : Created g → CardsKept g
  | step {g : Game} (op : Op) : CardsKept g → keepsCards g op → CardsKept (step g op)
  | restart {g : Game} (rnd : Nat → Nat) : ReachableFromCreated g →
      (startGame g rnd).1.success = true → CardsKept (step g (.startGame rnd))

/-- The session that `createParty` stores for host alice on socket `s1`. -/
def partyLobby : Game := setHostSocket lobby "s1"

/-- The party of alice after bob and carol have joined, carol's connection has
been removed before the start, and the game has been started. -/
def partyStarted : Game :=
  step (step (step (step partyLobby (.addPlayer "bob" (some "s2")))
    (.addPlayer "carol" (some "s3"))) (.removePlayer (some "s3"))) (.startGame noSwap)

/-- The session `afterLeave`, which has lost bob's four cards, after carol has
joined and the game has been started again. -/
def restarted : Game :=
  step (step afterLeave (.addPlayer "carol" (some "s3"))) (.startGame noSwap)

/-! ## Legality of a play -/

/-- C2. In a session whose `currentPlayerIndex` designates a player `current`,
`canPlayCard` returns false when the game is inactive, when the current player's
name differs from the asking player's, or when the discard pile is empty.
Otherwise it returns whether the card's suit is the effective suit, or its rank
is the rank of the top discard card, or its rank is `J`; the effective suit is
the declared suit when one is set (a non-empty string), and the suit of the top
discard card when `declaredSuit` is null or the empty string. -/
theorem canPlayCard_legality (g : Game) (player current : Player) (card : Card)
    (hcur : getCurrentPlayer g = some current) :
    ((g.gameActive = false ∨ current.name ≠ player.name ∨ g.discardPile = []) →
      canPlayCard g player card = some false) ∧
    (∀ topCard rest, g.gameActive = true → current.name = player.name →
      g.discardPile = topCard :: rest →
      (∀ s, g.declaredSuit = some s → s ≠ "" →
        canPlayCard g player card =
          some (decide (card.suit = s ∨ card.rank = topCard.rank ∨ card.rank = "J"))) ∧
      (g.declaredSuit = none ∨ g.declaredSuit = some "" →
        canPlayCard g player card =
          some (decide (card.suit = topCard.suit ∨ card.rank = topCard.rank ∨
            card.rank = "J")))) := by
  refine ⟨?_, ?_⟩
  · rintro (h | h | h)
    · simp [canPlayCard, h]
    · simp only [canPlayCard, hcur]
      split
      · rfl
      · simp [h]
    · simp only [canPlayCard, hcur, h]
      split
      · rfl
      · split <;> rfl
  · intro topCard rest hact hname hpile
    refine ⟨?_, ?_⟩
    · intro s hs hne
      simp only [canPlayCard, hcur, hact, hname, hpile, effectiveSuit, hs]
      simp [hne]
      rw [Bool.eq_iff_iff]; simp [or_assoc]
    · rintro (hs | hs) <;>
        simp [canPlayCard, hcur, hact, hname, hpile, effectiveSuit, hs] <;>
        (rw [Bool.eq_iff_iff]; simp [or_assoc])

/-- C2 at a concrete session: alice may play the three of hearts on the five of
hearts, and bob, whose turn it is not, may not play it. -/
theorem canPlayCard_legality_witness :
    getCurrentPlayer midGame = some alice ∧
    canPlayCard midGame alice ⟨"hearts", "3"⟩ = some true ∧
    canPlayCard midGame bob ⟨"hearts", "3"⟩ = some false :=
  ⟨rfl,
   ((canPlayCard_legality midGame alice alice ⟨"hearts", "3"⟩ rfl).2
      ⟨"hearts", "5"⟩ [] rfl rfl rfl).2 (Or.inl rfl),
   (canPlayCard_legality midGame bob alice ⟨"hearts", "3"⟩ rfl).1
      (Or.inr (Or.inl (by decide)))⟩

/-! ## Outcome of `playCard` -/

/-- No roster entry is found by name exactly when no entry has the name. -/
theorem find?_named_eq_none {players : List Player} {playerName : String} :
    players.find? (named playerName) = none ↔ ∀ p ∈ players, p.name ≠ playerName := by
  simp [List.find?_eq_none, named]

/-- The search of line 185 finds nothing exactly when no card of the hand has
the suit and rank. -/
theorem find?_sameCard_eq_none {hand : List Card} {card : Card} :
    hand.find? (sameCard card) = none ↔
      ∀ c ∈ hand, ¬(c.suit = card.suit ∧ c.rank = card.rank) := by
  simp [List.find?_eq_none, sameCard]

/-- The search of line 185 finds a card exactly when the hand has one with the
suit and rank. -/
theorem find?_sameCard_isSome {hand : List Card} {card : Card} :
    (∃ c, hand.find? (sameCard card) = some c) ↔
      ∃ c ∈ hand, c.suit = card.suit ∧ c.rank = card.rank := by
  constructor
  · rintro ⟨c, hc⟩
    have h1 := List.find?_some hc
    have h2 := List.mem_of_find?_eq_some hc
    simp [sameCard] at h1
    exact ⟨c, h2, h1⟩
  · rintro ⟨c, hc, h⟩
    cases hf : hand.find? (sameCard card) with
    | none => exact absurd h (find?_sameCard_eq_none.mp hf c hc)
    | some d => exact ⟨d, rfl⟩

/-- C3. `playCard` returns a success result if and only if a roster entry has
the name, the hand of that entry (the first one with the name) contains a card
with the same suit and rank, and `canPlayCard` returns true for that player and
card.  The failure is 'Player not found' when no roster entry has the name,
otherwise 'Card not in hand' when the hand has no card with the suit and rank,
otherwise 'Cannot play this card' when `canPlayCard` returns false; in each of
these cases the session is returned unchanged. -/
theorem playCard_outcome (g : Game) (playerName : String) (card : Card) (sd : SpecialData) :
    ((∃ r g', playCard g playerName card sd = some (r, g') ∧ r.success = true) ↔
      ∃ player, g.players.find? (named playerName) = some player ∧
        (∃ c ∈ player.hand, c.suit = card.suit ∧ c.rank = card.rank) ∧
        canPlayCard g player card = some true) ∧
    ((∀ p ∈ g.players, p.name ≠ playerName) →
      playCard g playerName card sd = some (Result.fail "Player not found", g)) ∧
    (∀ player, g.players.find? (named playerName) = some player →
      ((∀ c ∈ player.hand, ¬(c.suit = card.suit ∧ c.rank = card.rank)) →
        playCard g playerName card sd = some (Result.fail "Card not in hand", g)) ∧
      ((∃ c ∈ player.hand, c.suit = card.suit ∧ c.rank = card.rank) →
        canPlayCard g player card = some false →
        playCard g playerName card sd = some (Result.fail "Cannot play this card", g))) := by
  refine ⟨?_, ?_, ?_⟩
  · cases hf : g.players.find? (named playerName) with
    | none => simp [playCard, hf, Result.fail]
    | some player =>
      cases hh : player.hand.find? (sameCard card) with
      | none =>
        have := find?_sameCard_eq_none.mp hh
        simp only [playCard, hf, hh]
        constructor
        · rintro ⟨r, g', h, hs⟩
          simp [Result.fail] at h
          rw [← h.1] at hs; simp at hs
        · rintro ⟨p, hp, ⟨c, hc, hc'⟩, _⟩
          cases hp
          exact absurd hc' (this c hc)
      | some c0 =>
        have hex := find?_sameCard_isSome.mp ⟨c0, hh⟩
        cases hc : canPlayCard g player card with
        | none => simp [playCard, hf, hh, hc]
        | some b =>
          cases b with
          | false =>
            simp only [playCard, hf, hh, hc]
            constructor
            · rintro ⟨r, g', h, hs⟩
              simp [Result.fail] at h
              rw [← h.1] at hs; simp at hs
            · rintro ⟨p, hp, _, h⟩
              cases hp
              rw [hc] at h
              cases h
          | true =>
            simp only [playCard, hf, hh, hc]
            constructor
            · intro _
              exact ⟨player, rfl, hex, hc⟩
            · intro _
              split
              · exact ⟨_, _, rfl, rfl⟩
              · exact ⟨_, _, rfl, rfl⟩
  · intro h
    simp [playCard, find?_named_eq_none.mpr h]
  · intro player hf
    refine ⟨?_, ?_⟩
    · intro h
      simp [playCard, hf, find?_sameCard_eq_none.mpr h]
    · intro h hc
      obtain ⟨c0, hc0⟩ := find?_sameCard_isSome.mpr h
      simp [playCard, hf, hc0, hc]

/-- C3 at a concrete session: an unknown name, a card alice does not hold, a
card she holds but may not play, and a legal play. -/
theorem playCard_outcome_witness :
    playCard midGame "carol" ⟨"hearts", "3"⟩ ⟨none⟩ =
      some (Result.fail "Player not found", midGame) ∧
    playCard midGame "alice" ⟨"clubs", "K"⟩ ⟨none⟩ =
      some (Result.fail "Card not in hand", midGame) ∧
    playCard midGame "bob" ⟨"clubs", "K"⟩ ⟨none⟩ =
      some (Result.fail "Cannot play this card", midGame) ∧
    ∃ r g', playCard midGame "alice" ⟨"hearts", "3"⟩ ⟨none⟩ = some (r, g') ∧ r.success = true :=
  ⟨(playCard_outcome midGame "carol" ⟨"hearts", "3"⟩ ⟨none⟩).2.1 (by decide),
   ((playCard_outcome midGame "alice" ⟨"clubs", "K"⟩ ⟨none⟩).2.2 alice rfl).1 (by decide),
   ((playCard_outcome midGame "bob" ⟨"clubs", "K"⟩ ⟨none⟩).2.2 bob rfl).2
      ⟨⟨"clubs", "K"⟩, by decide, rfl, rfl⟩ rfl,
   (playCard_outcome midGame "alice" ⟨"hearts", "3"⟩ ⟨none⟩).1.mpr
      ⟨alice, rfl, ⟨⟨"hearts", "3"⟩, by decide, rfl, rfl⟩, rfl⟩⟩

/-! ## The shuffle permutes the deck -/

/-- Overwriting position `j`, which holds `b`, by `a` and putting `b` in front
rearranges `a` in front of the list. -/
theorem cons_set_perm (a b : Card) : ∀ (l : List Card) (j : Nat), l[j]? = some b →
    (b :: l.set j a).Perm (a :: l)
  | [], j, h => by simp at h
  | x :: l, 0, h => by
    simp at h
    subst h
    simpa using List.Perm.swap a x l
  | x :: l, j + 1, h => by
    simp at h
    have ih := cons_set_perm a b l j h
    simp only [List.set_cons_succ]
    exact ((List.Perm.swap x b _).trans (ih.cons x)).trans (List.Perm.swap a x l)

/-- Exchanging the elements at two positions rearranges the list. -/
theorem set_set_perm (a b : Card) : ∀ (l : List Card) (i j : Nat), l[i]? = some a →
    l[j]? = some b → ((l.set i b).set j a).Perm l
  | [], i, j, h, _ => by simp at h
  | x :: l, 0, 0, hi, hj => by
    simp at hi hj
    subst hi
    simp
  | x :: l, 0, j + 1, hi, hj => by
    simp at hi hj
    subst hi
    simpa using cons_set_perm x b l j hj
  | x :: l, i + 1, 0, hi, hj => by
    simp at hi hj
    subst hj
    simpa using cons_set_perm x a l i hi
  | x :: l, i + 1, j + 1, hi, hj => by
    simp at hi hj
    simpa using (set_set_perm a b l i j hi hj).cons x

/-- The swap of line 119 rearranges the deck. -/
theorem swap_perm (deck : List Card) (i j : Nat) : (swap deck i j).Perm deck := by
  unfold swap
  split
  · next a b hi hj => exact set_set_perm a b deck i j hi hj
  · exact List.Perm.refl _

/-- The loop of `shuffleDeck` rearranges the deck. -/
theorem shuffleLoop_perm (rnd : Nat → Nat) : ∀ (i : Nat) (deck : List Card),
    (shuffleLoop rnd i deck).Perm deck
  | 0, _ => List.Perm.refl _
  | i + 1, deck => (shuffleLoop_perm rnd i _).trans (swap_perm deck _ _)

/-- `shuffleDeck` returns a rearrangement of the deck, whatever the random draws. -/
theorem shuffleDeck_perm (rnd : Nat → Nat) (deck : List Card) :
    (shuffleDeck rnd deck).Perm deck :=
  shuffleLoop_perm rnd _ deck

/-- `shuffleDeck` keeps the number of cards. -/
theorem shuffleDeck_length (rnd : Nat → Nat) (deck : List Card) :
    (shuffleDeck rnd deck).length = deck.length :=
  (shuffleDeck_perm rnd deck).length_eq

/-! ## Drawing a card -/

/-- The roster search by name succeeds when the current player has the name. -/
theorem find?_named_isSome_of_current {g : Game} {current : Player} {playerName : String}
    (hcur : getCurrentPlayer g = some current) (hname : current.name = playerName) :
    ∃ p, g.players.find? (named playerName) = some p := by
  cases hf : g.players.find? (named playerName) with
  | some p => exact ⟨p, rfl⟩
  | none =>
    have hmem : current ∈ g.players := by
      unfold getCurrentPlayer at hcur
      exact List.getElem?_mem hcur
    exact absurd hname (find?_named_eq_none.mp hf current hmem)

/-- After the reshuffle of a session with an empty deck and more than one
discard card the deck is not empty. -/
theorem reshuffle_deck_ne_nil (g : Game) (rnd : Nat → Nat) (h : 1 < g.discardPile.length) :
    (reshuffle g rnd).deck ≠ [] := by
  unfold reshuffle
  cases hd : g.discardPile with
  | nil => simp [hd] at h
  | cons topCard rest =>
    simp only
    intro hnil
    have := shuffleDeck_length rnd rest
    rw [hnil] at this
    simp [hd] at h
    simp at this
    omega

/-- C10. In a session whose `currentPlayerIndex` designates a player `current`,
`drawCard` fails with 'Player not found' when no roster entry has the name;
otherwise with 'Not your turn' when the current player's name differs from the
name; otherwise with 'No cards available' if and only if the deck is empty and
the discard pile has at most one card; and in every other case it returns a
success result that carries a card. -/
theorem drawCard_outcome (g : Game) (playerName : String) (rnd : Nat → Nat)
    (current : Player) (hcur : getCurrentPlayer g = some current) :
    ((∀ p ∈ g.players, p.name ≠ playerName) →
      drawCard g playerName rnd = some (Result.fail "Player not found", g)) ∧
    ((∃ p ∈ g.players, p.name = playerName) → current.name ≠ playerName →
      drawCard g playerName rnd = some (Result.fail "Not your turn", g)) ∧
    ((∃ p ∈ g.players, p.name = playerName) → current.name = playerName →
      (drawCard g playerName rnd = some (Result.fail "No cards available", g) ↔
        (g.deck = [] ∧ g.discardPile.length ≤ 1)) ∧
      (¬(g.deck = [] ∧ g.discardPile.length ≤ 1) →
        ∃ card g', drawCard g playerName rnd =
          some ({ Result.ok with card := some card }, g'))) := by
  have hsome : (∃ p ∈ g.players, p.name = playerName) →
      ∃ p, g.players.find? (named playerName) = some p := by
    rintro ⟨p, hp, hn⟩
    cases hf : g.players.find? (named playerName) with
    | some q => exact ⟨q, rfl⟩
    | none => exact absurd hn (find?_named_eq_none.mp hf p hp)
  refine ⟨?_, ?_, ?_⟩
  · intro h
    simp [drawCard, find?_named_eq_none.mpr h]
  · intro hex hne
    obtain ⟨p, hp⟩ := hsome hex
    simp [drawCard, hp, hcur, hne]
  · intro hex hname
    obtain ⟨p, hp⟩ := hsome hex
    have hyes : (g.deck = [] ∧ g.discardPile.length ≤ 1) →
        drawCard g playerName rnd = some (Result.fail "No cards available", g) := by
      rintro ⟨hd, hl⟩
      simp [drawCard, hp, hcur, hname, hd, hl]
    have hno : ¬(g.deck = [] ∧ g.discardPile.length ≤ 1) →
        ∃ card g', drawCard g playerName rnd =
          some ({ Result.ok with card := some card }, g') := ?_
    · refine ⟨⟨?_, hyes⟩, hno⟩
      intro hfail
      by_contra hc
      obtain ⟨card, g', hd⟩ := hno hc
      rw [hd] at hfail
      simp [Result.fail, Result.ok] at hfail
    · intro hno
      simp only [drawCard, hp, hcur, hname]
      have hcond : (g.deck.length == 0 && decide (g.discardPile.length ≤ 1)) = false := by
        rw [Bool.eq_false_iff]
        intro hc
        simp at hc
        exact hno hc
      simp only [bne_self_eq_false, Bool.false_eq_true, if_false, hcond]
      have hne : (if (g.deck.length == 0) = true then reshuffle g rnd else g).deck ≠ [] := by
        split
        · next h0 =>
          simp at h0
          apply reshuffle_deck_ne_nil
          by_contra hl
          exact hno ⟨h0, by omega⟩
        · next h0 => simpa using h0
      cases hlast : (if (g.deck.length == 0) = true then reshuffle g rnd else g).deck.getLast? with
      | none => exact absurd (List.getLast?_eq_none_iff.mp hlast) hne
      | some c => exact ⟨c, _, rfl⟩

/-- C10 at concrete sessions: an unknown name, a player out of turn, a draw with
nothing left, and a draw from a deck of two cards. -/
theorem drawCard_outcome_witness :
    drawCard midGame "carol" noSwap = some (Result.fail "Player not found", midGame) ∧
    drawCard midGame "bob" noSwap = some (Result.fail "Not your turn", midGame) ∧
    drawCard stuck "alice" noSwap = some (Result.fail "No cards available", stuck) ∧
    ∃ card g', drawCard midGame "alice" noSwap =
      some ({ Result.ok with card := some card }, g') :=
  ⟨(drawCard_outcome midGame "carol" noSwap alice rfl).1 (by decide),
   (drawCard_outcome midGame "bob" noSwap alice rfl).2.1 ⟨bob, by decide, rfl⟩ (by decide),
   ((drawCard_outcome stuck "alice" noSwap alice rfl).2.2 ⟨alice, by decide, rfl⟩ rfl).1.mpr
      (by decide),
   ((drawCard_outcome midGame "alice" noSwap alice rfl).2.2 ⟨alice, by decide, rfl⟩ rfl).2
      (by decide)⟩


/-- C9. When the deck is empty, the discard pile has more than one card and the
current player is named `playerName`, `drawCard` succeeds for every outcome of
the shuffle; afterwards the discard pile is exactly its previous top card, the
deck together with the drawn card is a rearrangement of the other previous
discard cards, and the deck holds two cards fewer than the discard pile held. -/
theorem drawCard_reshuffle (g : Game) (playerName : String) (rnd : Nat → Nat)
    (current : Player) (hdeck : g.deck = []) (hpile : 1 < g.discardPile.length)
    (hcur : getCurrentPlayer g = some current) (hname : current.name = playerName) :
    ∃ card g', drawCard g playerName rnd = some ({ Result.ok with card := some card }, g') ∧
      g'.discardPile = g.discardPile.take 1 ∧
      (g'.deck ++ [card]).Perm (g.discardPile.drop 1) ∧
      g'.deck.length = g.discardPile.length - 2 := by
  obtain ⟨p, hp⟩ := find?_named_isSome_of_current hcur hname
  cases hd : g.discardPile with
  | nil => simp [hd] at hpile
  | cons topCard rest =>
    have hlen : (shuffleDeck rnd rest).length = rest.length := shuffleDeck_length rnd rest
    have hrest : 0 < rest.length := by simpa [hd] using hpile
    cases hlast : (shuffleDeck rnd rest).getLast? with
    | none =>
      rw [List.getLast?_eq_none_iff] at hlast
      rw [hlast] at hlen
      simp at hlen
      omega
    | some c =>
      have happ : (shuffleDeck rnd rest).dropLast ++ [c] = shuffleDeck rnd rest :=
        List.dropLast_append_getLast? c (by simp [hlast])
      refine ⟨c, giveCard (reshuffle g rnd) playerName c, ?_, ?_, ?_, ?_⟩
      · have h1 : (reshuffle g rnd).deck.getLast? = some c := by
          simp [reshuffle, hd, hlast]
        have hne : rest ≠ [] := by
          intro h; simp [h] at hrest
        simp [drawCard, hp, hcur, hname, hdeck, hd, h1, hne]
      · simp [giveCard, reshuffle, hd]
      · simp only [giveCard, reshuffle, hd, List.drop_succ_cons, List.drop_zero]
        rw [happ]
        exact shuffleDeck_perm rnd rest
      · simp [giveCard, reshuffle, hd, hlen]

/-- C9 at a concrete session with three discard cards. -/
theorem drawCard_reshuffle_witness :
    ∃ card g', drawCard drawnOut "alice" noSwap =
        some ({ Result.ok with card := some card }, g') ∧
      g'.discardPile = drawnOut.discardPile.take 1 ∧
      (g'.deck ++ [card]).Perm (drawnOut.discardPile.drop 1) ∧
      g'.deck.length = drawnOut.discardPile.length - 2 :=
  drawCard_reshuffle drawnOut "alice" noSwap alice rfl (by decide) rfl rfl

/-! ## A failure changes nothing -/

/-- C8. For each of `addPlayer`, `startGame`, `playCard`, `drawCard`,
`givePenalty` and `callPointOfOrder`, for every session and all arguments: when
the call returns a failure result (`success` is false), the session after the
call equals the session before it in every field. -/
theorem failure_no_mutation :
    (∀ g playerName socketId, (addPlayer g playerName socketId).1.success = false →
      (addPlayer g playerName socketId).2 = g) ∧
    (∀ g rnd, (startGame g rnd).1.success = false → (startGame g rnd).2 = g) ∧
    (∀ g playerName card specialData r g',
      playCard g playerName card specialData = some (r, g') → r.success = false → g' = g) ∧
    (∀ g playerName rnd r g',
      drawCard g playerName rnd = some (r, g') → r.success = false → g' = g) ∧
    (∀ g giver receiver reason now rnd,
      (givePenalty g giver receiver reason now rnd).1.success = false →
      (givePenalty g giver receiver reason now rnd).2 = g) ∧
    (∀ g playerName, (callPointOfOrder g playerName).1.success = false →
      (callPointOfOrder g playerName).2 = g) := by
  refine ⟨?_, ?_, ?_, ?_, ?_, ?_⟩
  · intro g playerName socketId
    unfold addPlayer
    split
    · intro _; rfl
    · split
      · intro _; rfl
      · intro h; simp [Result.ok] at h
  · intro g rnd
    unfold startGame
    split
    · intro _; rfl
    · intro h; simp [Result.ok] at h
  · intro g playerName card specialData r g' h hs
    cases hf : g.players.find? (named playerName) with
    | none => simp [playCard, hf] at h; exact h.2.symm
    | some player =>
      cases hh : player.hand.find? (sameCard card) with
      | none => simp [playCard, hf, hh] at h; exact h.2.symm
      | some c0 =>
        cases hc : canPlayCard g player card with
        | none => simp [playCard, hf, hh, hc] at h
        | some b =>
          cases b with
          | false => simp [playCard, hf, hh, hc] at h; exact h.2.symm
          | true =>
            simp only [playCard, hf, hh, hc] at h
            split at h <;>
              (simp only [Option.some.injEq, Prod.mk.injEq] at h
               rw [← h.1] at hs; simp [Result.ok] at hs)
  · intro g playerName rnd r g' h hs
    cases hf : g.players.find? (named playerName) with
    | none => simp [drawCard, hf] at h; exact h.2.symm
    | some player =>
      cases hc : getCurrentPlayer g with
      | none => simp [drawCard, hf, hc] at h
      | some current =>
        simp only [drawCard, hf, hc] at h
        split at h
        · simp only [Option.some.injEq, Prod.mk.injEq] at h; exact h.2.symm
        · split at h
          · simp only [Option.some.injEq, Prod.mk.injEq] at h; exact h.2.symm
          · split at h
            · simp at h
            · simp only [Option.some.injEq, Prod.mk.injEq] at h
              rw [← h.1] at hs; simp [Result.ok] at hs
  · intro g giver receiver reason now rnd
    unfold givePenalty
    split
    · intro _; rfl
    · intro h; simp [Result.ok] at h
  · intro g playerName
    unfold callPointOfOrder
    split
    · intro _; rfl
    · intro h; simp [Result.ok] at h

/-- C8 at concrete failing calls: a name that is taken, a start with one
player, a play by an unknown player, a draw out of turn. -/
theorem failure_no_mutation_witness :
    (addPlayer midGame "alice" none).2 = midGame ∧
    (startGame (Game.new "ROOM01" "alice" 0) noSwap).2 = Game.new "ROOM01" "alice" 0 ∧
    (∀ r g', playCard midGame "carol" ⟨"hearts", "3"⟩ ⟨none⟩ = some (r, g') →
      r.success = false → g' = midGame) ∧
    (∀ r g', drawCard midGame "bob" noSwap = some (r, g') → r.success = false →
      g' = midGame) :=
  ⟨failure_no_mutation.1 midGame "alice" none (by decide),
   failure_no_mutation.2.1 (Game.new "ROOM01" "alice" 0) noSwap (by decide),
   failure_no_mutation.2.2.1 midGame "carol" ⟨"hearts", "3"⟩ ⟨none⟩,
   failure_no_mutation.2.2.2.1 midGame "bob" noSwap⟩

/-! ## The deal -/

/-- The nested loops of `generateDeck` build the suits in order, each with its
ranks in order. -/
theorem freshDeck_eq : freshDeck = SUITS.flatMap (fun s => RANKS.map (fun r => Card.mk s r)) := by
  decide

/-- The fresh deck has 52 cards. -/
theorem freshDeck_length : freshDeck.length = 52 := by decide

/-- The cards of the fresh deck are pairwise distinct. -/
theorem freshDeck_nodup : freshDeck.Nodup := by decide

/-- The fresh deck holds exactly the cards of a suit of `SUITS` and a rank of
`RANKS`. -/
theorem mem_freshDeck (c : Card) : c ∈ freshDeck ↔ c.suit ∈ SUITS ∧ c.rank ∈ RANKS := by
  rw [freshDeck_eq]
  simp only [List.mem_flatMap, List.mem_map]
  constructor
  · rintro ⟨s, hs, r, hr, rfl⟩
    exact ⟨hs, hr⟩
  · rintro ⟨hs, hr⟩
    exact ⟨c.suit, hs, c.rank, hr, rfl⟩

/-- The inner loop of `dealCards` pushes the next `n` pops onto the hand; the
pops of a deck are its cards from the last to the first. -/
theorem dealHand_eq : ∀ (n : Nat) (hand deck : List Card),
    dealHand n hand deck = (hand ++ deck.reverse.take n, (deck.reverse.drop n).reverse)
  | 0, hand, deck => by simp [dealHand]
  | n + 1, hand, deck => by
    cases hl : deck.getLast? with
    | none =>
      have hd : deck = [] := List.getLast?_eq_none_iff.mp hl
      subst hd
      simp only [dealHand, List.getLast?_nil]
      rw [dealHand_eq n hand []]
      simp
    | some c =>
      have happ : deck.dropLast ++ [c] = deck := List.dropLast_append_getLast? c (by simp [hl])
      simp only [dealHand, hl]
      rw [dealHand_eq n (hand ++ [c]) deck.dropLast]
      conv_rhs => rw [← happ]
      simp

/-- The hand that `dealCards` gives a player sitting at roster index `k`. -/
theorem dealPlayers_cons (p : Player) (ps : List Player) (deck : List Card) :
    dealPlayers (p :: ps) deck =
      ({ p with hand := deck.reverse.take 4, cardCount := (deck.reverse.take 4).length } ::
          (dealPlayers ps (deck.reverse.drop 4).reverse).1,
        (dealPlayers ps (deck.reverse.drop 4).reverse).2) := by
  simp [dealPlayers, dealHand_eq]

/-- The deck that the outer loop of `dealCards` leaves: four pops a player. -/
theorem dealPlayers_snd : ∀ (ps : List Player) (deck : List Card),
    (dealPlayers ps deck).2 = (deck.reverse.drop (4 * ps.length)).reverse
  | [], deck => by simp [dealPlayers]
  | p :: ps, deck => by
    rw [dealPlayers_cons]
    simp only [dealPlayers_snd ps, List.reverse_reverse, List.drop_drop, List.length_cons]
    congr 2
    omega

/-- The deal keeps the roster's length. -/
theorem dealPlayers_length : ∀ (ps : List Player) (deck : List Card),
    (dealPlayers ps deck).1.length = ps.length
  | [], deck => by simp [dealPlayers]
  | p :: ps, deck => by
    rw [dealPlayers_cons]
    simp [dealPlayers_length ps]

/-- The deal keeps the names, in roster order. -/
theorem dealPlayers_names : ∀ (ps : List Player) (deck : List Card),
    (dealPlayers ps deck).1.map (fun p => p.name) = ps.map (fun p => p.name)
  | [], deck => by simp [dealPlayers]
  | p :: ps, deck => by
    rw [dealPlayers_cons]
    simp [dealPlayers_names ps]

/-- The player at roster index `k` receives the four pops that follow the first
`4 * k` pops. -/
theorem dealPlayers_getElem? : ∀ (ps : List Player) (deck : List Card) (k : Nat) (p : Player),
    ps[k]? = some p →
    (dealPlayers ps deck).1[k]? =
      some { p with hand := (deck.reverse.drop (4 * k)).take 4,
                    cardCount := ((deck.reverse.drop (4 * k)).take 4).length }
  | [], deck, k, p, h => by simp at h
  | q :: ps, deck, 0, p, h => by
    simp at h
    subst h
    rw [dealPlayers_cons]
    simp
  | q :: ps, deck, k + 1, p, h => by
    simp at h
    rw [dealPlayers_cons]
    simp only [List.getElem?_cons_succ]
    rw [dealPlayers_getElem? ps _ k p h]
    simp only [List.reverse_reverse, List.drop_drop]
    have : 4 + 4 * k = 4 * (k + 1) := by omega
    rw [this]

/-- The hands after the deal, in roster order, are the first `4 * n` pops. -/
theorem handCards_dealPlayers : ∀ (ps : List Player) (deck : List Card),
    handCards (dealPlayers ps deck).1 = deck.reverse.take (4 * ps.length)
  | [], deck => by simp [dealPlayers, handCards]
  | p :: ps, deck => by
    rw [dealPlayers_cons]
    have ih := handCards_dealPlayers ps (deck.reverse.drop 4).reverse
    simp only [handCards] at ih ⊢
    simp only [List.map_cons, List.flatten_cons, ih, List.reverse_reverse, List.length_cons]
    have : 4 * (ps.length + 1) = 4 + 4 * ps.length := by omega
    rw [this, List.take_add]

/-- When the deck outlasts the hands, `dealCards` turns the next pop into the
discard pile. -/
theorem dealCards_eq (g : Game) (h : 4 * g.players.length < g.deck.length) :
    dealCards g =
      { g with
        players := (dealPlayers g.players g.deck).1
        deck := (g.deck.reverse.drop (4 * g.players.length + 1)).reverse
        discardPile := (g.deck.reverse.drop (4 * g.players.length)).take 1 } := by
  have hlen : 4 * g.players.length < g.deck.reverse.length := by simpa using h
  cases hd : g.deck.reverse.drop (4 * g.players.length) with
  | nil =>
    have := congrArg List.length hd
    simp at this
    omega
  | cons c tl =>
    have htl : g.deck.reverse.drop (4 * g.players.length + 1) = tl := by
      rw [← List.drop_drop, hd]
      rfl
    simp only [dealCards, dealPlayers_snd, hd, htl]
    simp

/-- A successful `startGame`, with the shuffled deck read as its sequence of
pops. -/
theorem startGame_eq (g : Game) (rnd : Nat → Nat) (h2 : 2 ≤ g.players.length)
    (h10 : g.players.length ≤ 10) :
    startGame g rnd =
      (Result.ok,
        { g with
          players := (dealPlayers g.players (shuffleDeck rnd freshDeck)).1
          deck := ((shuffleDeck rnd freshDeck).reverse.drop (4 * g.players.length + 1)).reverse
          discardPile := ((shuffleDeck rnd freshDeck).reverse.drop (4 * g.players.length)).take 1
          currentPlayerIndex := 0
          gameActive := true
          chatMuted := true }) := by
  have hlen : (shuffleDeck rnd freshDeck).length = 52 := by
    rw [shuffleDeck_length, freshDeck_length]
  have hnot : ¬ g.players.length < 2 := by omega
  unfold startGame generateDeck
  rw [if_neg hnot]
  generalize shuffleDeck rnd freshDeck = d at hlen ⊢
  have hd : 4 * ({ g with deck := d } : Game).players.length <
      ({ g with deck := d } : Game).deck.length := by
    show 4 * g.players.length < d.length
    omega
  simp only []
  rw [dealCards_eq _ hd]

/-! ## Writing to one roster entry -/

/-- The predicate of lines 185 and 193 holds exactly of the card itself. -/
theorem sameCard_iff (card c : Card) : sameCard card c = true ↔ c = card := by
  cases card; cases c
  simp [sameCard]

/-- A write through the found reference keeps the roster's length. -/
theorem updateFirst_length (q : Player → Bool) (f : Player → Player) :
    ∀ ps : List Player, (updateFirst q f ps).length = ps.length
  | [] => rfl
  | p :: ps => by
    unfold updateFirst
    split
    · rfl
    · simp [updateFirst_length q f ps]

/-- A write through the found reference splits the roster at the first entry
that satisfies the predicate. -/
theorem updateFirst_of_find? (q : Player → Bool) (f : Player → Player) :
    ∀ (ps : List Player) (p : Player), ps.find? q = some p →
      ∃ before after, ps = before ++ p :: after ∧ (∀ a ∈ before, q a = false) ∧
        updateFirst q f ps = before ++ f p :: after
  | [], p, h => by simp at h
  | x :: ps, p, h => by
    by_cases hx : q x = true
    · have hp : x = p := by simpa [List.find?, hx] using h
      subst hp
      exact ⟨[], ps, rfl, by simp, by simp [updateFirst, hx]⟩
    · have hx' : q x = false := by simpa using hx
      have hp : ps.find? q = some p := by simpa [List.find?, hx'] using h
      obtain ⟨before, after, h1, h2, h3⟩ := updateFirst_of_find? q f ps p hp
      refine ⟨x :: before, after, by simp [h1], ?_, ?_⟩
      · intro a ha
        rcases List.mem_cons.mp ha with rfl | ha
        · exact hx'
        · exact h2 a ha
      · simp [updateFirst, hx', h3]

/-- The hands of a roster split in two. -/
theorem handCards_append (ps qs : List Player) :
    handCards (ps ++ qs) = handCards ps ++ handCards qs := by
  simp [handCards]

/-- The hands of a roster with a first entry. -/
theorem handCards_cons (p : Player) (ps : List Player) :
    handCards (p :: ps) = p.hand ++ handCards ps := by
  simp [handCards]

/-- The sum of the hand sizes is the number of cards in the hands. -/
theorem length_handCards (ps : List Player) :
    (handCards ps).length = (ps.map (fun p => p.hand.length)).sum := by
  induction ps with
  | nil => rfl
  | cons p ps ih => simp [handCards_cons, ih]

/-- The count `|deck| + |discardPile| + Σ|hands|` is the number of cards in the
three kinds of container. -/
theorem totalCards_eq (g : Game) : totalCards g = (allCards g).length := by
  simp [totalCards, allCards, length_handCards, Nat.add_assoc]

/-- A write that keeps the name keeps the names of the roster. -/
theorem updateFirst_names (q : Player → Bool) (f : Player → Player)
    (hf : ∀ p, (f p).name = p.name) :
    ∀ ps : List Player, (updateFirst q f ps).map (fun p => p.name) = ps.map (fun p => p.name)
  | [] => rfl
  | p :: ps => by
    unfold updateFirst
    split
    · simp [hf]
    · simp [updateFirst_names q f hf ps]

/-- After a write that keeps the name, the search by name finds the written
entry. -/
theorem find?_updateFirst (playerName : String) (f : Player → Player)
    (hf : ∀ p, (f p).name = p.name) :
    ∀ (ps : List Player) (p : Player), ps.find? (named playerName) = some p →
      (updateFirst (named playerName) f ps).find? (named playerName) = some (f p)
  | [], p, h => by simp at h
  | x :: ps, p, h => by
    by_cases hx : named playerName x = true
    · have hp : x = p := by simpa [List.find?, hx] using h
      subst hp
      have : named playerName (f x) = true := by simpa [named, hf] using hx
      simp [updateFirst, hx, List.find?, this]
    · have hx' : named playerName x = false := by simpa using hx
      have hp : ps.find? (named playerName) = some p := by simpa [List.find?, hx'] using h
      simp [updateFirst, hx', List.find?, find?_updateFirst playerName f hf ps p hp]

/-! ## A successful play -/

/-- The shape of a successful `playCard`: the three guards passed, and the
session is `afterPlay`, with the turn advanced unless the hand became empty. -/
theorem playCard_success {g : Game} {playerName : String} {card : Card}
    {specialData : SpecialData} {r : Result} {g' : Game}
    (h : playCard g playerName card specialData = some (r, g')) (hs : r.success = true) :
    ∃ player, g.players.find? (named playerName) = some player ∧ card ∈ player.hand ∧
      canPlayCard g player card = some true ∧
      ((player.hand.filter (fun c => !sameCard card c) = [] ∧
          r = { Result.ok with winner := some playerName } ∧
          g' = afterPlay g playerName card specialData player) ∨
        (player.hand.filter (fun c => !sameCard card c) ≠ [] ∧ r = Result.ok ∧
          g' = nextTurn (afterPlay g playerName card specialData player))) := by
  cases hf : g.players.find? (named playerName) with
  | none =>
    simp [playCard, hf] at h
    rw [← h.1] at hs; simp [Result.fail] at hs
  | some player =>
    cases hh : player.hand.find? (sameCard card) with
    | none =>
      simp [playCard, hf, hh] at h
      rw [← h.1] at hs; simp [Result.fail] at hs
    | some c0 =>
      have hmem : card ∈ player.hand := by
        have h1 := (sameCard_iff card c0).mp (List.find?_some hh)
        have h2 := List.mem_of_find?_eq_some hh
        rwa [h1] at h2
      cases hc : canPlayCard g player card with
      | none => simp [playCard, hf, hh, hc] at h
      | some b =>
        cases b with
        | false =>
          simp [playCard, hf, hh, hc] at h
          rw [← h.1] at hs; simp [Result.fail] at hs
        | true =>
          refine ⟨player, rfl, hmem, hc, ?_⟩
          simp only [playCard, hf, hh, hc] at h
          split at h
          · next hlen =>
            simp only [Option.some.injEq, Prod.mk.injEq] at h
            left
            refine ⟨?_, h.1.symm, h.2.symm⟩
            simpa using hlen
          · next hlen =>
            simp only [Option.some.injEq, Prod.mk.injEq] at h
            right
            refine ⟨?_, h.1.symm, h.2.symm⟩
            simpa using hlen

/-- In a hand without repeated cards, line 193 removes exactly the played card
and keeps the order of the others. -/
theorem filter_not_sameCard {hand : List Card} {card : Card} (hn : hand.Nodup)
    (hmem : card ∈ hand) :
    ∃ l1 l2, hand = l1 ++ card :: l2 ∧
      hand.filter (fun c => !sameCard card c) = l1 ++ l2 ∧ card ∉ l1 ++ l2 := by
  obtain ⟨l1, l2, rfl⟩ := List.append_of_mem hmem
  have h1 : card ∉ l1 := by
    intro hc
    have := List.nodup_append.mp hn
    exact this.2.2 hc (List.mem_cons_self _ _)
  have h2 : card ∉ l2 := by
    have := (List.nodup_append.mp hn).2.1
    exact (List.nodup_cons.mp this).1
  have hkeep : ∀ l : List Card, card ∉ l → l.filter (fun c => !sameCard card c) = l := by
    intro l hl
    rw [List.filter_eq_self]
    intro a ha
    have : ¬ sameCard card a = true := by
      rw [sameCard_iff]
      rintro rfl
      exact hl ha
    simpa using this
  refine ⟨l1, l2, rfl, ?_, ?_⟩
  · have hself : sameCard card card = true := (sameCard_iff card card).mpr rfl
    simp [List.filter_append, List.filter_cons, hself, hkeep l1 h1, hkeep l2 h2]
  · simp [h1, h2]

/-! ## Cards move between containers -/

/-- The names of the roster, in order. -/
theorem names_afterPlay (g : Game) (playerName : String) (card : Card)
    (specialData : SpecialData) (player : Player) :
    (afterPlay g playerName card specialData player).players.map (fun p => p.name) =
      g.players.map (fun p => p.name) := by
  simp only [afterPlay]
  apply updateFirst_names
  intro p
  rfl

/-- A hand of a roster entry is part of the cards of the session. -/
theorem hand_sublist_allCards {g : Game} {p : Player} (hp : p ∈ g.players) :
    p.hand.Sublist (allCards g) := by
  obtain ⟨before, after, h⟩ := List.append_of_mem hp
  simp only [allCards, h, handCards_append, handCards_cons]
  exact (((List.sublist_append_left _ _).trans (List.sublist_append_right _ _)).trans
    (List.sublist_append_right _ _))

/-- A legal play moves the card from the hand to the discard pile: when the
hand has no repeated card, the cards of the session are rearranged. -/
theorem allCards_afterPlay {g : Game} {playerName : String} {card : Card}
    (specialData : SpecialData) {player : Player}
    (hf : g.players.find? (named playerName) = some player) (hn : player.hand.Nodup)
    (hmem : card ∈ player.hand) :
    (allCards (afterPlay g playerName card specialData player)).Perm (allCards g) := by
  obtain ⟨before, after, h1, _, h3⟩ := updateFirst_of_find? (named playerName)
    (fun p => { p with
      hand := player.hand.filter (fun c => !sameCard card c)
      cardCount := (player.hand.filter (fun c => !sameCard card c)).length }) g.players player hf
  obtain ⟨l1, l2, e1, e2, _⟩ := filter_not_sameCard hn hmem
  simp only [allCards, afterPlay, h3]
  rw [h1]
  simp only [handCards_append, handCards_cons, e2]
  rw [e1]
  rw [List.perm_iff_count]
  intro a
  simp only [List.count_append, List.count_cons]
  omega

/-- Giving the last card of the deck to a player on the roster rearranges the
cards of the session. -/
theorem allCards_giveCard {g : Game} {playerName : String} {c : Card} {p : Player}
    (hf : g.players.find? (named playerName) = some p) (hlast : g.deck.getLast? = some c) :
    (allCards (giveCard g playerName c)).Perm (allCards g) := by
  obtain ⟨before, after, h1, _, h3⟩ := updateFirst_of_find? (named playerName)
    (fun p => { p with hand := p.hand ++ [c], cardCount := p.hand.length + 1 }) g.players p hf
  have happ : g.deck.dropLast ++ [c] = g.deck := List.dropLast_append_getLast? c (by simp [hlast])
  simp only [allCards, giveCard, h3]
  rw [h1]
  conv_rhs => rw [← happ]
  simp only [handCards_append, handCards_cons]
  rw [List.perm_iff_count]
  intro a
  simp only [List.count_append, List.count_cons]
  omega

/-- The reshuffle of an empty deck rearranges the cards of the session. -/
theorem allCards_reshuffle (g : Game) (rnd : Nat → Nat) (hd : g.deck = []) :
    (allCards (reshuffle g rnd)).Perm (allCards g) := by
  unfold reshuffle
  cases hp : g.discardPile with
  | nil => exact List.Perm.refl _
  | cons topCard rest =>
    simp only [allCards, hd, hp]
    have := shuffleDeck_perm rnd rest
    rw [List.perm_iff_count] at this ⊢
    intro a
    simp only [List.count_append, List.count_cons, List.count_nil, this a]
    omega

/-! ## Shapes of the results -/

/-- A failure result of `playCard` comes with the session it was given. -/
theorem playCard_failure {g : Game} {playerName : String} {card : Card}
    {specialData : SpecialData} {r : Result} {g' : Game}
    (h : playCard g playerName card specialData = some (r, g')) (hs : r.success = false) :
    g' = g := by
  cases hf : g.players.find? (named playerName) with
  | none => simp [playCard, hf] at h; exact h.2.symm
  | some player =>
    cases hh : player.hand.find? (sameCard card) with
    | none => simp [playCard, hf, hh] at h; exact h.2.symm
    | some c0 =>
      cases hc : canPlayCard g player card with
      | none => simp [playCard, hf, hh, hc] at h
      | some b =>
        cases b with
        | false => simp [playCard, hf, hh, hc] at h; exact h.2.symm
        | true =>
          simp only [playCard, hf, hh, hc] at h
          split at h <;>
            (simp only [Option.some.injEq, Prod.mk.injEq] at h
             rw [← h.1] at hs; simp [Result.ok] at hs)

/-- The shape of a result of `drawCard`: a failure with the session it was
given, or a card popped from the deck, reshuffled first when it was empty. -/
theorem drawCard_shape {g : Game} {playerName : String} {rnd : Nat → Nat} {r : Result}
    {g' : Game} (h : drawCard g playerName rnd = some (r, g')) :
    (r.success = false ∧ g' = g) ∨
    (∃ p current c, g.players.find? (named playerName) = some p ∧
      getCurrentPlayer g = some current ∧ current.name = playerName ∧
      r = { Result.ok with card := some c } ∧
      ((g.deck = [] ∧ 1 < g.discardPile.length ∧ (reshuffle g rnd).deck.getLast? = some c ∧
          g' = giveCard (reshuffle g rnd) playerName c) ∨
        (g.deck ≠ [] ∧ g.deck.getLast? = some c ∧ g' = giveCard g playerName c))) := by
  cases hf : g.players.find? (named playerName) with
  | none =>
    simp [drawCard, hf] at h
    left; exact ⟨by rw [← h.1]; rfl, h.2.symm⟩
  | some player =>
    cases hc : getCurrentPlayer g with
    | none => simp [drawCard, hf, hc] at h
    | some current =>
      simp only [drawCard, hf, hc] at h
      split at h
      · simp only [Option.some.injEq, Prod.mk.injEq] at h
        left; exact ⟨by rw [← h.1]; rfl, h.2.symm⟩
      · next hname =>
        have hname' : current.name = playerName := by simpa using hname
        split at h
        · simp only [Option.some.injEq, Prod.mk.injEq] at h
          left; exact ⟨by rw [← h.1]; rfl, h.2.symm⟩
        · next hcond =>
          by_cases hd : g.deck = []
          · have hl : 1 < g.discardPile.length := by
              simp [hd] at hcond
              exact hcond
            simp only [hd, List.length_nil, beq_self_eq_true, if_true] at h
            cases hlast : (reshuffle g rnd).deck.getLast? with
            | none => simp [hlast] at h
            | some c =>
              simp only [hlast, Option.some.injEq, Prod.mk.injEq] at h
              right
              exact ⟨player, current, c, rfl, rfl, hname', h.1.symm,
                Or.inl ⟨hd, hl, rfl, h.2.symm⟩⟩
          · have hne : (g.deck.length == 0) = false := by simpa using hd
            simp only [hne, Bool.false_eq_true, if_false] at h
            cases hlast : g.deck.getLast? with
            | none => simp [hlast] at h
            | some c =>
              simp only [hlast, Option.some.injEq, Prod.mk.injEq] at h
              right
              exact ⟨player, current, c, rfl, rfl, hname', h.1.symm,
                Or.inr ⟨hd, rfl, h.2.symm⟩⟩

/-! ## Effect of each operation on the roster and the cards -/

/-- The names after `giveCard`. -/
theorem names_giveCard (g : Game) (playerName : String) (c : Card) :
    (giveCard g playerName c).players.map (fun p => p.name) =
      g.players.map (fun p => p.name) := by
  simp only [giveCard]
  apply updateFirst_names
  intro p
  rfl

/-- The reshuffle does not touch the roster. -/
theorem players_reshuffle (g : Game) (rnd : Nat → Nat) :
    (reshuffle g rnd).players = g.players := by
  unfold reshuffle
  split <;> rfl

/-- The reshuffle does not touch `gameActive`. -/
theorem gameActive_reshuffle (g : Game) (rnd : Nat → Nat) :
    (reshuffle g rnd).gameActive = g.gameActive := by
  unfold reshuffle
  split <;> rfl

/-- The effect of `playCard` on names, cards and `gameActive`. -/
theorem playCard_effect {g : Game} {playerName : String} {card : Card}
    {specialData : SpecialData} {r : Result} {g' : Game}
    (h : playCard g playerName card specialData = some (r, g')) (hn : (allCards g).Nodup) :
    g'.players.map (fun p => p.name) = g.players.map (fun p => p.name) ∧
    (allCards g').Perm (allCards g) ∧ g'.gameActive = g.gameActive := by
  cases hs : r.success with
  | false =>
    rw [playCard_failure h hs]
    exact ⟨rfl, List.Perm.refl _, rfl⟩
  | true =>
    obtain ⟨player, hf, hmem, _, hcase⟩ := playCard_success h hs
    have hp : player ∈ g.players := List.mem_of_find?_eq_some hf
    have hhand : player.hand.Nodup := (hand_sublist_allCards hp).nodup hn
    have hperm := allCards_afterPlay specialData hf hhand hmem
    have hnames := names_afterPlay g playerName card specialData player
    rcases hcase with ⟨_, _, rfl⟩ | ⟨_, _, rfl⟩
    · exact ⟨hnames, hperm, rfl⟩
    · exact ⟨hnames, hperm, rfl⟩

/-- The effect of `drawCard` on names, cards and `gameActive`. -/
theorem drawCard_effect {g : Game} {playerName : String} {rnd : Nat → Nat} {r : Result}
    {g' : Game} (h : drawCard g playerName rnd = some (r, g')) :
    g'.players.map (fun p => p.name) = g.players.map (fun p => p.name) ∧
    (allCards g').Perm (allCards g) ∧ g'.gameActive = g.gameActive := by
  rcases drawCard_shape h with ⟨_, rfl⟩ | ⟨p, current, c, hf, _, _, _, hcase⟩
  · exact ⟨rfl, List.Perm.refl _, rfl⟩
  · rcases hcase with ⟨hd, _, hlast, rfl⟩ | ⟨_, hlast, rfl⟩
    · have hf' : (reshuffle g rnd).players.find? (named playerName) = some p := by
        rw [players_reshuffle]; exact hf
      refine ⟨?_, ?_, ?_⟩
      · rw [names_giveCard, players_reshuffle]
      · exact (allCards_giveCard hf' hlast).trans (allCards_reshuffle g rnd hd)
      · exact gameActive_reshuffle g rnd
    · exact ⟨names_giveCard g playerName c, allCards_giveCard hf hlast, rfl⟩

/-- The effect of `givePenalty` on names, cards and `gameActive`. -/
theorem givePenalty_effect (g : Game) (giver receiver reason : String) (now : Nat)
    (rnd : Nat → Nat) :
    (givePenalty g giver receiver reason now rnd).2.players.map (fun p => p.name) =
      g.players.map (fun p => p.name) ∧
    (allCards (givePenalty g giver receiver reason now rnd).2).Perm (allCards g) ∧
    (givePenalty g giver receiver reason now rnd).2.gameActive = g.gameActive := by
  cases hf : g.players.find? (named receiver) with
  | none => simp [givePenalty, hf]
  | some p =>
    simp only [givePenalty, hf]
    by_cases hc : (g.deck.length == 0 && decide (g.discardPile.length > 1)) = true
    · have hd : g.deck = [] := by
        simp at hc
        exact hc.1
      have hf' : (reshuffle g rnd).players.find? (named receiver) = some p := by
        rw [players_reshuffle]; exact hf
      simp only [hc, if_true]
      cases hlast : (reshuffle g rnd).deck.getLast? with
      | none =>
        exact ⟨by rw [players_reshuffle], allCards_reshuffle g rnd hd, gameActive_reshuffle g rnd⟩
      | some c =>
        refine ⟨?_, ?_, ?_⟩
        · show (giveCard (reshuffle g rnd) receiver c).players.map _ = _
          rw [names_giveCard, players_reshuffle]
        · exact (allCards_giveCard hf' hlast).trans (allCards_reshuffle g rnd hd)
        · exact gameActive_reshuffle g rnd
    · have hc' : (g.deck.length == 0 && decide (g.discardPile.length > 1)) = false := by
        simpa using hc
      simp only [hc', Bool.false_eq_true, if_false]
      cases hlast : g.deck.getLast? with
      | none => exact ⟨rfl, List.Perm.refl _, rfl⟩
      | some c =>
        exact ⟨names_giveCard g receiver c, allCards_giveCard hf hlast, rfl⟩

/-- Removing a roster entry removes its hand from the hands. -/
theorem handCards_eraseIdx_sublist : ∀ (ps : List Player) (k : Nat),
    (handCards (ps.eraseIdx k)).Sublist (handCards ps)
  | [], _ => by simp [handCards]
  | p :: ps, 0 => by
    simp only [List.eraseIdx_cons_zero, handCards_cons]
    exact List.sublist_append_right _ _
  | p :: ps, k + 1 => by
    simp only [List.eraseIdx_cons_succ, handCards_cons]
    exact (List.Sublist.refl _).append (handCards_eraseIdx_sublist ps k)

/-- Line 100 changes no hand. -/
theorem handCards_makeFirstHost (ps : List Player) :
    handCards (makeFirstHost ps) = handCards ps := by
  cases ps <;> simp [makeFirstHost, handCards]

/-- Line 100 changes no name. -/
theorem names_makeFirstHost (ps : List Player) :
    (makeFirstHost ps).map (fun p => p.name) = ps.map (fun p => p.name) := by
  cases ps <;> simp [makeFirstHost]

/-- Line 100 keeps the roster's length. -/
theorem length_makeFirstHost (ps : List Player) :
    (makeFirstHost ps).length = ps.length := by
  cases ps <;> simp [makeFirstHost]

/-- The effect of `removePlayer`: the roster loses at most one entry, and the
cards of the session lose at most that entry's hand. -/
theorem removePlayer_effect (g : Game) (socketId : Option String) :
    ((removePlayer g socketId).2.players.map (fun p => p.name)).Sublist
      (g.players.map (fun p => p.name)) ∧
    (allCards (removePlayer g socketId).2).Sublist (allCards g) ∧
    (removePlayer g socketId).2.gameActive = g.gameActive := by
  unfold removePlayer
  split
  · exact ⟨List.Sublist.refl _, List.Sublist.refl _, rfl⟩
  · next playerIndex _ =>
    split
    · exact ⟨List.Sublist.refl _, List.Sublist.refl _, rfl⟩
    · have h1 : ((g.players.eraseIdx playerIndex).map (fun p => p.name)).Sublist
          (g.players.map (fun p => p.name)) :=
        (List.eraseIdx_sublist _ _).map _
      have h2 : (g.deck ++ g.discardPile ++ handCards (g.players.eraseIdx playerIndex)).Sublist
          (g.deck ++ g.discardPile ++ handCards g.players) :=
        (List.Sublist.refl _).append (handCards_eraseIdx_sublist _ _)
      simp only []
      split
      · refine ⟨?_, ?_, rfl⟩
        · simp only [names_makeFirstHost]; exact h1
        · simp only [allCards, handCards_makeFirstHost]; exact h2
      · exact ⟨h1, h2, rfl⟩

/-- The effect of `addPlayer`: a roster of at most ten players with pairwise
distinct names stays so, and no card moves. -/
theorem addPlayer_effect (g : Game) (playerName : String) (socketId : Option String)
    (hlen : g.players.length ≤ 10) (hnames : (g.players.map (fun p => p.name)).Nodup) :
    (addPlayer g playerName socketId).2.players.length ≤ 10 ∧
    ((addPlayer g playerName socketId).2.players.map (fun p => p.name)).Nodup ∧
    allCards (addPlayer g playerName socketId).2 = allCards g ∧
    (addPlayer g playerName socketId).2.gameActive = g.gameActive := by
  unfold addPlayer
  split
  · exact ⟨hlen, hnames, rfl, rfl⟩
  · next hfull =>
    split
    · exact ⟨hlen, hnames, rfl, rfl⟩
    · next hany =>
      refine ⟨?_, ?_, ?_, rfl⟩
      · simp only [List.length_append, List.length_singleton]
        omega
      · simp only [List.map_append, List.map_cons, List.map_nil]
        rw [List.nodup_append]
        refine ⟨hnames, List.nodup_singleton _, ?_⟩
        intro a ha hb
        simp only [List.mem_singleton] at hb
        subst hb
        apply hany
        rw [List.any_eq_true]
        obtain ⟨p, hp, hpn⟩ := List.mem_map.mp ha
        exact ⟨p, hp, by simpa using hpn⟩
      · simp [allCards, handCards]

/-- After a successful `startGame` the deck, the discard pile and the hands are
together a rearrangement of the fresh deck. -/
theorem allCards_startGame (g : Game) (rnd : Nat → Nat) (h2 : 2 ≤ g.players.length)
    (h10 : g.players.length ≤ 10) :
    (allCards (startGame g rnd).2).Perm freshDeck := by
  rw [startGame_eq g rnd h2 h10]
  simp only [allCards, handCards_dealPlayers]
  refine List.Perm.trans ?_ (shuffleDeck_perm rnd freshDeck)
  generalize shuffleDeck rnd freshDeck = d
  generalize 4 * g.players.length = m
  have e1 := List.take_append_drop m d.reverse
  have e2 := List.take_append_drop 1 (d.reverse.drop m)
  rw [List.drop_drop] at e2
  rw [List.perm_iff_count]
  intro a
  have c1 := congrArg (List.count a) e1
  have c2 := congrArg (List.count a) e2
  simp only [List.count_append, List.count_reverse] at c1 c2 ⊢
  omega

/-- The effect of `startGame` on a roster of at most ten players: a failure
changes nothing, and after a success the cards of the session are a
rearrangement of the fresh deck and the game is active. -/
theorem startGame_effect (g : Game) (rnd : Nat → Nat) (h10 : g.players.length ≤ 10) :
    (startGame g rnd).2.players.map (fun p => p.name) = g.players.map (fun p => p.name) ∧
    ((startGame g rnd).2 = g ∨
      ((allCards (startGame g rnd).2).Perm freshDeck ∧
        (startGame g rnd).2.gameActive = true)) := by
  by_cases h2 : 2 ≤ g.players.length
  · refine ⟨?_, Or.inr ⟨allCards_startGame g rnd h2 h10, ?_⟩⟩
    · rw [startGame_eq g rnd h2 h10]
      exact dealPlayers_names _ _
    · rw [startGame_eq g rnd h2 h10]
  · have : g.players.length < 2 := by omega
    simp [startGame, this]

/-! ## Invariants of the reachable sessions -/

/-- The effect of one call on a session with at most ten players, pairwise
distinct names and pairwise distinct cards: the roster stays so, and the cards
are rearranged, or are a rearrangement of the fresh deck after a successful
`startGame`, or lose a hand in `removePlayer`. -/
theorem step_effect (g : Game) (op : Op) (hlen : g.players.length ≤ 10)
    (hnames : (g.players.map (fun p => p.name)).Nodup) (hn : (allCards g).Nodup) :
    (step g op).players.length ≤ 10 ∧
    ((step g op).players.map (fun p => p.name)).Nodup ∧
    (((allCards (step g op)).Perm (allCards g) ∧ (step g op).gameActive = g.gameActive) ∨
      ((allCards (step g op)).Perm freshDeck ∧ (step g op).gameActive = true) ∨
      (op.isRemovePlayer = true ∧ (allCards (step g op)).Sublist (allCards g))) := by
  have same : ∀ g' : Game, g'.players.map (fun p => p.name) = g.players.map (fun p => p.name) →
      g'.players.length ≤ 10 ∧ (g'.players.map (fun p => p.name)).Nodup := by
    intro g' h
    refine ⟨?_, by rw [h]; exact hnames⟩
    have := congrArg List.length h
    simp only [List.length_map] at this
    omega
  cases op with
  | addPlayer playerName socketId =>
    obtain ⟨h1, h2, h3, h4⟩ := addPlayer_effect g playerName socketId hlen hnames
    exact ⟨h1, h2, Or.inl ⟨by rw [show allCards (step g (.addPlayer playerName socketId)) =
      allCards g from h3], h4⟩⟩
  | removePlayer socketId =>
    obtain ⟨h1, h2, _⟩ := removePlayer_effect g socketId
    refine ⟨?_, h1.nodup hnames, Or.inr (Or.inr ⟨rfl, h2⟩)⟩
    have := h1.length_le
    simp only [List.length_map] at this
    exact le_trans this hlen
  | startGame rnd =>
    obtain ⟨h1, h2⟩ := startGame_effect g rnd hlen
    obtain ⟨a, b⟩ := same _ h1
    refine ⟨a, b, ?_⟩
    rcases h2 with h2 | h2
    · left
      show (allCards (startGame g rnd).2).Perm _ ∧ (startGame g rnd).2.gameActive = _
      rw [h2]
      exact ⟨List.Perm.refl _, rfl⟩
    · exact Or.inr (Or.inl h2)
  | playCard playerName card specialData =>
    simp only [step]
    cases h : playCard g playerName card specialData with
    | none => exact ⟨hlen, hnames, Or.inl ⟨List.Perm.refl _, rfl⟩⟩
    | some rg =>
      obtain ⟨r, g'⟩ := rg
      obtain ⟨h1, h2, h3⟩ := playCard_effect h hn
      obtain ⟨a, b⟩ := same _ h1
      exact ⟨a, b, Or.inl ⟨h2, h3⟩⟩
  | drawCard playerName rnd =>
    simp only [step]
    cases h : drawCard g playerName rnd with
    | none => exact ⟨hlen, hnames, Or.inl ⟨List.Perm.refl _, rfl⟩⟩
    | some rg =>
      obtain ⟨r, g'⟩ := rg
      obtain ⟨h1, h2, h3⟩ := drawCard_effect h
      obtain ⟨a, b⟩ := same _ h1
      exact ⟨a, b, Or.inl ⟨h2, h3⟩⟩
  | givePenalty giver receiver reason now rnd =>
    obtain ⟨h1, h2, h3⟩ := givePenalty_effect g giver receiver reason now rnd
    obtain ⟨a, b⟩ := same _ h1
    exact ⟨a, b, Or.inl ⟨h2, h3⟩⟩
  | callPointOfOrder playerName =>
    simp only [step, callPointOfOrder]
    split
    · exact ⟨hlen, hnames, Or.inl ⟨List.Perm.refl _, rfl⟩⟩
    · exact ⟨hlen, hnames, Or.inl ⟨List.Perm.refl _, rfl⟩⟩
  | endPointOfOrder =>
    exact ⟨hlen, hnames, Or.inl ⟨List.Perm.refl _, rfl⟩⟩
  | addCustomRule creator rule now =>
    exact ⟨hlen, hnames, Or.inl ⟨List.Perm.refl _, rfl⟩⟩

/-- Every session reachable from a newly constructed one has at most ten
players, with pairwise distinct names, and holds pairwise distinct cards. -/
theorem reachableVia_inv {allowed : Op → Prop} {g : Game} (h : ReachableVia allowed g) :
    g.players.length ≤ 10 ∧ (g.players.map (fun p => p.name)).Nodup ∧ (allCards g).Nodup := by
  induction h with
  | new roomCode hostName now => simp [Game.new, allCards, handCards]
  | step op _ _ ih =>
    obtain ⟨hlen, hnames, hn⟩ := ih
    obtain ⟨h1, h2, h3⟩ := step_effect _ op hlen hnames hn
    refine ⟨h1, h2, ?_⟩
    rcases h3 with ⟨hp, _⟩ | ⟨hp, _⟩ | ⟨_, hs⟩
    · exact hp.nodup_iff.mpr hn
    · exact hp.nodup_iff.mpr freshDeck_nodup
    · exact hs.nodup hn

/-- Without `removePlayer`, a reachable session that is not active holds no
card, and an active one holds a rearrangement of the fresh deck. -/
theorem reachableVia_conserved {g : Game}
    (h : ReachableVia (fun op => op.isRemovePlayer = false) g) :
    (g.gameActive = false ∧ allCards g = []) ∨
      (g.gameActive = true ∧ (allCards g).Perm freshDeck) := by
  induction h with
  | new roomCode hostName now => left; simp [Game.new, allCards, handCards]
  | @step g op hg hop ih =>
    obtain ⟨hlen, hnames, hn⟩ := reachableVia_inv hg
    obtain ⟨_, _, h3⟩ := step_effect g op hlen hnames hn
    rcases h3 with ⟨hp, ha⟩ | ⟨hp, ha⟩ | ⟨hr, _⟩
    · rcases ih with ⟨i1, i2⟩ | ⟨i1, i2⟩
      · left
        refine ⟨by rw [ha, i1], ?_⟩
        rw [i2] at hp
        exact List.Perm.eq_nil hp
      · right
        exact ⟨by rw [ha, i1], hp.trans i2⟩
    · exact Or.inr ⟨ha, hp⟩
    · rw [hop] at hr
      cases hr

/-! ## Facts about the concrete sessions -/

/-- The session `started` is reachable. -/
theorem reachable_started : Reachable started :=
  .step _ (.step _ (.new _ _ _) trivial) trivial

set_option maxRecDepth 100000 in
/-- In `started`, alice's play of the jack of spades with hearts declared
succeeds and yields `jackDeclared`. -/
theorem playCard_started :
    playCard started "alice" ⟨"spades", "J"⟩ ⟨some "hearts"⟩ = some (Result.ok, jackDeclared) := by
  decide

/-! ## What a successful play writes -/

/-- The declared suit after a legal play. -/
theorem declaredSuit_afterPlay (g : Game) (playerName : String) (card : Card)
    (specialData : SpecialData) (player : Player) :
    (∀ s, card.rank = "J" → specialData.declaredSuit = some s → s ≠ "" →
      (afterPlay g playerName card specialData player).declaredSuit = some s) ∧
    (card.rank ≠ "J" ∨ specialData.declaredSuit = none ∨ specialData.declaredSuit = some "" →
      (afterPlay g playerName card specialData player).declaredSuit = none) := by
  refine ⟨?_, ?_⟩
  · intro s hj hs hne
    simp [afterPlay, hj, hs, truthy, hne]
  · rintro (h | h | h)
    · simp [afterPlay, h]
    · simp [afterPlay, h, truthy]
    · simp [afterPlay, h, truthy]

/-- C4. In every session reachable from a newly constructed one, after a
successful `playCard` the hand of the player (the roster entry found by name) is
the hand before with exactly one card, the played one, removed and the other
cards in their previous order; the discard pile is the played card followed by
the previous discard pile; and `declaredSuit` is the supplied declared suit when
the card is a jack and a declared suit was supplied (a non-empty string), and
null otherwise. -/
theorem playCard_writes (g : Game) (playerName : String) (card : Card)
    (specialData : SpecialData) (r : Result) (g' : Game) (hreach : Reachable g)
    (h : playCard g playerName card specialData = some (r, g')) (hs : r.success = true) :
    ∃ player player' l1 l2,
      g.players.find? (named playerName) = some player ∧
      g'.players.find? (named playerName) = some player' ∧
      player.hand = l1 ++ card :: l2 ∧ player'.hand = l1 ++ l2 ∧ card ∉ l1 ++ l2 ∧
      g'.discardPile = card :: g.discardPile ∧
      (∀ s, card.rank = "J" → specialData.declaredSuit = some s → s ≠ "" →
        g'.declaredSuit = some s) ∧
      (card.rank ≠ "J" ∨ specialData.declaredSuit = none ∨ specialData.declaredSuit = some "" →
        g'.declaredSuit = none) := by
  obtain ⟨player, hf, hmem, _, hcase⟩ := playCard_success h hs
  have hn : (allCards g).Nodup := (reachableVia_inv hreach).2.2
  have hhand : player.hand.Nodup :=
    (hand_sublist_allCards (List.mem_of_find?_eq_some hf)).nodup hn
  obtain ⟨l1, l2, e1, e2, e3⟩ := filter_not_sameCard hhand hmem
  have hfind : (afterPlay g playerName card specialData player).players.find?
      (named playerName) = some { player with
        hand := player.hand.filter (fun c => !sameCard card c)
        cardCount := (player.hand.filter (fun c => !sameCard card c)).length } := by
    simp only [afterPlay]
    apply find?_updateFirst playerName _ _ g.players player hf
    intro p
    rfl
  have hd := declaredSuit_afterPlay g playerName card specialData player
  have hg : g' = afterPlay g playerName card specialData player ∨
      g' = nextTurn (afterPlay g playerName card specialData player) := by
    rcases hcase with ⟨_, _, h⟩ | ⟨_, _, h⟩
    · exact Or.inl h
    · exact Or.inr h
  refine ⟨player, { player with
      hand := player.hand.filter (fun c => !sameCard card c)
      cardCount := (player.hand.filter (fun c => !sameCard card c)).length },
    l1, l2, hf, ?_, e1, e2, e3, ?_, ?_, ?_⟩
  · rcases hg with rfl | rfl
    · exact hfind
    · exact hfind
  · rcases hg with rfl | rfl <;> rfl
  · rcases hg with rfl | rfl
    · exact hd.1
    · exact hd.1
  · rcases hg with rfl | rfl
    · exact hd.2
    · exact hd.2

/-- C4 at the reachable session `started`: alice plays the jack of spades and
declares hearts. -/
theorem playCard_writes_witness :
    ∃ player player' l1 l2,
      started.players.find? (named "alice") = some player ∧
      jackDeclared.players.find? (named "alice") = some player' ∧
      player.hand = l1 ++ (⟨"spades", "J"⟩ : Card) :: l2 ∧ player'.hand = l1 ++ l2 ∧
      (⟨"spades", "J"⟩ : Card) ∉ l1 ++ l2 ∧
      jackDeclared.discardPile = ⟨"spades", "J"⟩ :: started.discardPile ∧
      (∀ s, (⟨"spades", "J"⟩ : Card).rank = "J" →
        (⟨some "hearts"⟩ : SpecialData).declaredSuit = some s → s ≠ "" →
        jackDeclared.declaredSuit = some s) ∧
      ((⟨"spades", "J"⟩ : Card).rank ≠ "J" ∨
        (⟨some "hearts"⟩ : SpecialData).declaredSuit = none ∨
        (⟨some "hearts"⟩ : SpecialData).declaredSuit = some "" →
        jackDeclared.declaredSuit = none) :=
  playCard_writes started "alice" ⟨"spades", "J"⟩ ⟨some "hearts"⟩ Result.ok jackDeclared
    reachable_started playCard_started rfl


/-! ## The turn after a play -/

/-- A legal play is a play by the current player. -/
theorem canPlayCard_true {g : Game} {player : Player} {card : Card}
    (h : canPlayCard g player card = some true) :
    ∃ current, getCurrentPlayer g = some current ∧ current.name = player.name := by
  unfold canPlayCard at h
  split at h
  · simp at h
  · cases hc : getCurrentPlayer g with
    | none => simp [hc] at h
    | some current =>
      simp only [hc] at h
      split at h
      · simp at h
      · next hname => exact ⟨current, rfl, by simpa using hname⟩

/-- In a roster with pairwise distinct names a name designates one index. -/
theorem index_unique_of_names_nodup {players : List Player}
    (hn : (players.map (fun p => p.name)).Nodup) {i j : Nat} {p q : Player}
    (hi : players[i]? = some p) (hj : players[j]? = some q) (hname : p.name = q.name) :
    i = j := by
  have hlt : i < (players.map (fun p => p.name)).length := by
    rw [List.length_map]
    exact (List.getElem?_eq_some_iff.mp hi).1
  apply List.getElem?_inj hlt hn
  rw [List.getElem?_map, List.getElem?_map, hi, hj]
  simp [hname]

/-- C5. After a successful `playCard` the player named `playerName` is the
current player, at index `currentPlayerIndex` of a roster of `n` players.  When
that player's hand is empty afterwards, the result reports the player as winner
and `currentPlayerIndex` is unchanged; otherwise the result reports no winner
and `currentPlayerIndex` becomes `(currentPlayerIndex + 1) mod n`.  In a roster
with pairwise distinct names, as every reachable roster is, `currentPlayerIndex`
is the only index of a player with that name. -/
theorem playCard_turn (g : Game) (playerName : String) (card : Card)
    (specialData : SpecialData) (r : Result) (g' : Game)
    (h : playCard g playerName card specialData = some (r, g')) (hs : r.success = true) :
    ∃ current player',
      getCurrentPlayer g = some current ∧ current.name = playerName ∧
      g'.players.find? (named playerName) = some player' ∧
      g'.players.length = g.players.length ∧
      (player'.hand = [] →
        r.winner = some playerName ∧ g'.currentPlayerIndex = g.currentPlayerIndex) ∧
      (player'.hand ≠ [] →
        r.winner = none ∧
        g'.currentPlayerIndex = (g.currentPlayerIndex + 1) % g.players.length) ∧
      ((g.players.map (fun p => p.name)).Nodup →
        ∀ i p, g.players[i]? = some p → p.name = playerName → i = g.currentPlayerIndex) := by
  obtain ⟨player, hf, _, hcan, hcase⟩ := playCard_success h hs
  obtain ⟨current, hcur, hname⟩ := canPlayCard_true hcan
  have hpn : player.name = playerName := by
    simpa [named] using List.find?_some hf
  have hfind : (afterPlay g playerName card specialData player).players.find?
      (named playerName) = some { player with
        hand := player.hand.filter (fun c => !sameCard card c)
        cardCount := (player.hand.filter (fun c => !sameCard card c)).length } := by
    simp only [afterPlay]
    apply find?_updateFirst playerName _ _ g.players player hf
    intro p
    rfl
  have hlen : (afterPlay g playerName card specialData player).players.length =
      g.players.length := by
    simp only [afterPlay]
    exact updateFirst_length _ _ _
  refine ⟨current, { player with
      hand := player.hand.filter (fun c => !sameCard card c)
      cardCount := (player.hand.filter (fun c => !sameCard card c)).length },
    hcur, hname.trans hpn, ?_, ?_, ?_, ?_, ?_⟩
  · rcases hcase with ⟨_, _, rfl⟩ | ⟨_, _, rfl⟩
    · exact hfind
    · exact hfind
  · rcases hcase with ⟨_, _, rfl⟩ | ⟨_, _, rfl⟩
    · exact hlen
    · exact hlen
  · intro hempty
    rcases hcase with ⟨_, rfl, rfl⟩ | ⟨hne, _, _⟩
    · exact ⟨rfl, rfl⟩
    · exact absurd hempty hne
  · intro hne
    rcases hcase with ⟨hempty, _, _⟩ | ⟨_, rfl, rfl⟩
    · exact absurd hempty hne
    · refine ⟨rfl, ?_⟩
      show (g.currentPlayerIndex + 1) %
        (afterPlay g playerName card specialData player).players.length = _
      rw [hlen]
  · intro hn i p hi hp
    unfold getCurrentPlayer at hcur
    exact index_unique_of_names_nodup hn hi hcur (hp.trans (hname.trans hpn).symm)

/-- C5 at the reachable session `started`: after alice's play the turn is
bob's. -/
theorem playCard_turn_witness :
    ∃ current player',
      getCurrentPlayer started = some current ∧ current.name = "alice" ∧
      jackDeclared.players.find? (named "alice") = some player' ∧
      jackDeclared.players.length = started.players.length ∧
      (player'.hand = [] →
        Result.ok.winner = some "alice" ∧
        jackDeclared.currentPlayerIndex = started.currentPlayerIndex) ∧
      (player'.hand ≠ [] →
        Result.ok.winner = none ∧
        jackDeclared.currentPlayerIndex =
          (started.currentPlayerIndex + 1) % started.players.length) ∧
      ((started.players.map (fun p => p.name)).Nodup →
        ∀ i p, started.players[i]? = some p → p.name = "alice" →
          i = started.currentPlayerIndex) :=
  playCard_turn started "alice" ⟨"spades", "J"⟩ ⟨some "hearts"⟩ Result.ok jackDeclared
    playCard_started rfl

/-! ## The deal of `startGame` -/

/-- C6. In every reachable session the roster has at most ten players.  With
fewer than two players `startGame` fails with 'Need at least 2 players'.  With
at least two it succeeds for every outcome of the shuffle: the shuffled deck is
a rearrangement of the fresh deck; the player at roster index `k` holds exactly
the four cards popped after the first `4 * k` pops (the pops are the shuffled
deck from its last card to its first); the discard pile is exactly the card
popped next; the deck keeps `52 - 4 * n - 1` cards; deck, discard pile and hands
together are exactly the 52 distinct cards of a suit and a rank; and
`currentPlayerIndex` is 0, `gameActive` and `chatMuted` are true. -/
theorem startGame_deal (g : Game) (rnd : Nat → Nat) (hreach : Reachable g) :
    g.players.length ≤ 10 ∧
    (g.players.length < 2 →
      startGame g rnd = (Result.fail "Need at least 2 players", g)) ∧
    (2 ≤ g.players.length →
      (startGame g rnd).1 = Result.ok ∧
      (shuffleDeck rnd freshDeck).Perm freshDeck ∧
      (startGame g rnd).2.players.length = g.players.length ∧
      (∀ k p, g.players[k]? = some p →
        ∃ p', (startGame g rnd).2.players[k]? = some p' ∧ p'.name = p.name ∧
          p'.hand = ((shuffleDeck rnd freshDeck).reverse.drop (4 * k)).take 4 ∧
          p'.hand.length = 4 ∧ p'.cardCount = 4) ∧
      (startGame g rnd).2.discardPile =
        ((shuffleDeck rnd freshDeck).reverse.drop (4 * g.players.length)).take 1 ∧
      (startGame g rnd).2.discardPile.length = 1 ∧
      (startGame g rnd).2.deck =
        ((shuffleDeck rnd freshDeck).reverse.drop (4 * g.players.length + 1)).reverse ∧
      (startGame g rnd).2.deck.length = 52 - 4 * g.players.length - 1 ∧
      (allCards (startGame g rnd).2).Perm freshDeck ∧
      (allCards (startGame g rnd).2).Nodup ∧
      totalCards (startGame g rnd).2 = 52 ∧
      (∀ c, c ∈ allCards (startGame g rnd).2 ↔ c.suit ∈ SUITS ∧ c.rank ∈ RANKS) ∧
      (startGame g rnd).2.currentPlayerIndex = 0 ∧
      (startGame g rnd).2.gameActive = true ∧
      (startGame g rnd).2.chatMuted = true) := by
  have h10 : g.players.length ≤ 10 := (reachableVia_inv hreach).1
  refine ⟨h10, ?_, ?_⟩
  · intro h
    simp [startGame, h]
  · intro h2
    have hperm := allCards_startGame g rnd h2 h10
    have hlen : (shuffleDeck rnd freshDeck).length = 52 := by
      rw [shuffleDeck_length, freshDeck_length]
    have hsp := shuffleDeck_perm rnd freshDeck
    have htotal : totalCards (startGame g rnd).2 = 52 := by
      rw [totalCards_eq, hperm.length_eq, freshDeck_length]
    have hmem : ∀ c, c ∈ allCards (startGame g rnd).2 ↔ c.suit ∈ SUITS ∧ c.rank ∈ RANKS := by
      intro c
      rw [hperm.mem_iff, mem_freshDeck]
    have hnodup := hperm.nodup_iff.mpr freshDeck_nodup
    revert hperm htotal hmem hnodup
    rw [startGame_eq g rnd h2 h10]
    generalize shuffleDeck rnd freshDeck = d at hlen hsp ⊢
    intro hperm htotal hmem hnodup
    refine ⟨rfl, hsp, dealPlayers_length _ _, ?_, ?_, ?_, rfl, ?_, hperm, hnodup, htotal, hmem,
      rfl, rfl, rfl⟩
    · intro k p hk
      have hklt : k < g.players.length := (List.getElem?_eq_some_iff.mp hk).1
      refine ⟨_, dealPlayers_getElem? g.players d k p hk, rfl, rfl, ?_, ?_⟩
      · simp only [List.length_take, List.length_drop, List.length_reverse, hlen]
        omega
      · simp only [List.length_take, List.length_drop, List.length_reverse, hlen]
        omega
    · rfl
    · simp only [List.length_take, List.length_drop, List.length_reverse, hlen]
      omega
    · simp only [List.length_reverse, List.length_drop, hlen]
      omega

/-- The session `twoPlayers` is reachable without `removePlayer`. -/
theorem reachableVia_twoPlayers :
    ReachableVia (fun op => op.isRemovePlayer = false) twoPlayers :=
  .step _ (.new _ _ _) rfl

/-- The session `twoPlayers` is reachable. -/
theorem reachable_twoPlayers : Reachable twoPlayers :=
  .step _ (.new _ _ _) trivial

/-- The session `jackDeclared` is reachable. -/
theorem reachable_jackDeclared : Reachable jackDeclared :=
  .step _ reachable_started trivial

/-- C6 at the reachable two-player session `twoPlayers`. -/
theorem startGame_deal_witness :
    (startGame twoPlayers noSwap).1 = Result.ok ∧
    (startGame twoPlayers noSwap).2.discardPile.length = 1 ∧
    (startGame twoPlayers noSwap).2.deck.length = 52 - 4 * twoPlayers.players.length - 1 ∧
    totalCards (startGame twoPlayers noSwap).2 = 52 ∧
    (startGame twoPlayers noSwap).2.gameActive = true :=
  have h := (startGame_deal twoPlayers noSwap reachable_twoPlayers).2.2 (by decide)
  ⟨h.1, h.2.2.2.2.2.1, h.2.2.2.2.2.2.2.1, h.2.2.2.2.2.2.2.2.2.2.1,
    h.2.2.2.2.2.2.2.2.2.2.2.2.2.1⟩

/-! ## `startGame` and the declared suit -/

/-- The method `startGame` never writes `declaredSuit`. -/
theorem startGame_declaredSuit (g : Game) (rnd : Nat → Nat) :
    (startGame g rnd).2.declaredSuit = g.declaredSuit := by
  unfold startGame
  split
  · rfl
  · simp only [dealCards, generateDeck]
    split <;> rfl

set_option maxRecDepth 100000 in
/-- C7 fails on the code.  In the reachable session `jackDeclared`, where alice
has declared hearts with a jack, `startGame` succeeds and `declaredSuit` is
still hearts afterwards; with the five of spades as the new discard pile, alice
may then not play her king of spades. -/
theorem startGame_stale_declaredSuit :
    Reachable jackDeclared ∧
    jackDeclared.declaredSuit = some "hearts" ∧
    (startGame jackDeclared noSwap).1 = Result.ok ∧
    (startGame jackDeclared noSwap).2.declaredSuit = some "hearts" ∧
    (startGame jackDeclared noSwap).2.discardPile = [⟨"spades", "5"⟩] ∧
    (∃ p, (startGame jackDeclared noSwap).2.players.find? (named "alice") = some p ∧
      (⟨"spades", "K"⟩ : Card) ∈ p.hand ∧
      canPlayCard (startGame jackDeclared noSwap).2 p ⟨"spades", "K"⟩ = some false) := by
  refine ⟨reachable_jackDeclared, by decide, by decide, by decide, by decide, ?_⟩
  refine ⟨⟨"alice", true, none,
    [⟨"spades", "K"⟩, ⟨"spades", "Q"⟩, ⟨"spades", "J"⟩, ⟨"spades", "10"⟩], 4⟩, ?_, ?_, ?_⟩ <;>
  decide

/-! ## Conservation of the cards -/

set_option maxRecDepth 100000 in
/-- C1 fails as stated: a newly constructed session is reachable and holds no
card; and the session `afterLeave`, reached by `addPlayer`, `startGame` and
`removePlayer`, holds 48 cards. -/
theorem conservation_counterexample :
    Reachable lobby ∧ totalCards lobby = 0 ∧
    Reachable afterLeave ∧ afterLeave.gameActive = true ∧ totalCards afterLeave = 48 := by
  refine ⟨.new _ _ _, by decide, .step _ reachable_started trivial, by decide, by decide⟩

/-! ## Cards only move between containers -/

/-- C19. In every session reachable from a newly constructed one, each
successful `playCard`, `drawCard` and `givePenalty`, the reshuffle branch of the
last two included and for every outcome of the shuffle, leaves the cards held in
the deck, the discard pile and all hands together the same up to order (the same
multiset), and so leaves the total `|deck| + |discardPile| + Σ|hands|` the
same. -/
theorem cards_only_move (g : Game) (hreach : Reachable g) :
    (∀ playerName card specialData r g',
      playCard g playerName card specialData = some (r, g') → r.success = true →
      (allCards g').Perm (allCards g) ∧ totalCards g' = totalCards g) ∧
    (∀ playerName rnd r g',
      drawCard g playerName rnd = some (r, g') → r.success = true →
      (allCards g').Perm (allCards g) ∧ totalCards g' = totalCards g) ∧
    (∀ giver receiver reason now rnd,
      (givePenalty g giver receiver reason now rnd).1.success = true →
      (allCards (givePenalty g giver receiver reason now rnd).2).Perm (allCards g) ∧
      totalCards (givePenalty g giver receiver reason now rnd).2 = totalCards g) := by
  have hn : (allCards g).Nodup := (reachableVia_inv hreach).2.2
  refine ⟨?_, ?_, ?_⟩
  · intro playerName card specialData r g' h _
    have hp := (playCard_effect h hn).2.1
    exact ⟨hp, by rw [totalCards_eq, totalCards_eq, hp.length_eq]⟩
  · intro playerName rnd r g' h _
    have hp := (drawCard_effect h).2.1
    exact ⟨hp, by rw [totalCards_eq, totalCards_eq, hp.length_eq]⟩
  · intro giver receiver reason now rnd _
    have hp := (givePenalty_effect g giver receiver reason now rnd).2.1
    exact ⟨hp, by rw [totalCards_eq, totalCards_eq, hp.length_eq]⟩

/-- C19 at the reachable session `started`: alice's play of the jack of spades
keeps the 52 cards. -/
theorem cards_only_move_witness :
    (allCards jackDeclared).Perm (allCards started) ∧
    totalCards jackDeclared = totalCards started :=
  (cards_only_move started reachable_started).1 "alice" ⟨"spades", "J"⟩ ⟨some "hearts"⟩
    Result.ok jackDeclared playCard_started rfl

/-! ## What a draw and a penalty write -/

/-- The reshuffle writes the deck and the discard pile only. -/
theorem reshuffle_frame (g : Game) (rnd : Nat → Nat) :
    (reshuffle g rnd).currentPlayerIndex = g.currentPlayerIndex ∧
    (reshuffle g rnd).declaredSuit = g.declaredSuit ∧
    (reshuffle g rnd).pointOfOrderActive = g.pointOfOrderActive ∧
    (reshuffle g rnd).pointOfOrderCaller = g.pointOfOrderCaller ∧
    (reshuffle g rnd).chatMuted = g.chatMuted ∧
    (reshuffle g rnd).penaltyLog = g.penaltyLog ∧
    (reshuffle g rnd).customRules = g.customRules ∧
    (reshuffle g rnd).roomCode = g.roomCode ∧
    (reshuffle g rnd).createdAt = g.createdAt := by
  unfold reshuffle
  split <;> exact ⟨rfl, rfl, rfl, rfl, rfl, rfl, rfl, rfl, rfl⟩

/-- The roster after `giveCard`: the first entry with the name has the card at
the end of its hand, and every other entry is as it was. -/
theorem players_giveCard {g : Game} {playerName : String} (c : Card) {p : Player}
    (hf : g.players.find? (named playerName) = some p) :
    ∃ before after, g.players = before ++ p :: after ∧
      (∀ a ∈ before, a.name ≠ playerName) ∧ p.name = playerName ∧
      (giveCard g playerName c).players =
        before ++ { p with hand := p.hand ++ [c], cardCount := p.hand.length + 1 } :: after := by
  obtain ⟨before, after, h1, h2, h3⟩ := updateFirst_of_find? (named playerName)
    (fun p => { p with hand := p.hand ++ [c], cardCount := p.hand.length + 1 }) g.players p hf
  refine ⟨before, after, h1, ?_, ?_, h3⟩
  · intro a ha
    have := h2 a ha
    simpa [named] using this
  · simpa [named] using List.find?_some hf

/-- C15. After a successful `drawCard` the `currentPlayerIndex` is what it
was; the hand of the drawing player (the first roster entry with the name) is
the previous hand with the returned card appended at the end; every other
roster entry, and so every other hand, is unchanged; and `declaredSuit`,
`gameActive`, the point-of-order fields, `chatMuted`, `penaltyLog` and
`customRules` are unchanged. -/
theorem drawCard_frame (g : Game) (playerName : String) (rnd : Nat → Nat) (r : Result)
    (g' : Game) (h : drawCard g playerName rnd = some (r, g')) (hs : r.success = true) :
    ∃ c before p after,
      r.card = some c ∧
      g.players = before ++ p :: after ∧
      (∀ a ∈ before, a.name ≠ playerName) ∧ p.name = playerName ∧
      g'.players =
        before ++ { p with hand := p.hand ++ [c], cardCount := p.hand.length + 1 } :: after ∧
      g'.currentPlayerIndex = g.currentPlayerIndex ∧
      g'.declaredSuit = g.declaredSuit ∧
      g'.gameActive = g.gameActive ∧
      g'.pointOfOrderActive = g.pointOfOrderActive ∧
      g'.pointOfOrderCaller = g.pointOfOrderCaller ∧
      g'.chatMuted = g.chatMuted ∧
      g'.penaltyLog = g.penaltyLog ∧
      g'.customRules = g.customRules := by
  rcases drawCard_shape h with ⟨hf, _⟩ | ⟨p, current, c, hf, _, _, hr, hcase⟩
  · rw [hf] at hs
    cases hs
  · rcases hcase with ⟨_, _, _, rfl⟩ | ⟨_, _, rfl⟩
    · have hf' : (reshuffle g rnd).players.find? (named playerName) = some p := by
        rw [players_reshuffle]; exact hf
      obtain ⟨before, after, h1, h2, h3, h4⟩ := players_giveCard c hf'
      rw [players_reshuffle] at h1
      obtain ⟨f1, f2, f3, f4, f5, f6, f7, _, _⟩ := reshuffle_frame g rnd
      exact ⟨c, before, p, after, by rw [hr], h1, h2, h3, h4, f1, f2,
        gameActive_reshuffle g rnd, f3, f4, f5, f6, f7⟩
    · obtain ⟨before, after, h1, h2, h3, h4⟩ := players_giveCard c hf
      exact ⟨c, before, p, after, by rw [hr], h1, h2, h3, h4, rfl, rfl, rfl, rfl, rfl, rfl,
        rfl, rfl⟩

/-- C15 at the session `midGame`: alice draws the two of clubs and it is still
her turn. -/
theorem drawCard_frame_witness :
    ∃ c before p after,
      ({ Result.ok with card := some ⟨"clubs", "2"⟩ } : Result).card = some c ∧
      midGame.players = before ++ p :: after ∧
      (∀ a ∈ before, a.name ≠ "alice") ∧ p.name = "alice" ∧
      (giveCard midGame "alice" ⟨"clubs", "2"⟩).players =
        before ++ { p with hand := p.hand ++ [c], cardCount := p.hand.length + 1 } :: after ∧
      (giveCard midGame "alice" ⟨"clubs", "2"⟩).currentPlayerIndex =
        midGame.currentPlayerIndex ∧
      (giveCard midGame "alice" ⟨"clubs", "2"⟩).declaredSuit = midGame.declaredSuit ∧
      (giveCard midGame "alice" ⟨"clubs", "2"⟩).gameActive = midGame.gameActive ∧
      (giveCard midGame "alice" ⟨"clubs", "2"⟩).pointOfOrderActive =
        midGame.pointOfOrderActive ∧
      (giveCard midGame "alice" ⟨"clubs", "2"⟩).pointOfOrderCaller =
        midGame.pointOfOrderCaller ∧
      (giveCard midGame "alice" ⟨"clubs", "2"⟩).chatMuted = midGame.chatMuted ∧
      (giveCard midGame "alice" ⟨"clubs", "2"⟩).penaltyLog = midGame.penaltyLog ∧
      (giveCard midGame "alice" ⟨"clubs", "2"⟩).customRules = midGame.customRules :=
  drawCard_frame midGame "alice" noSwap { Result.ok with card := some ⟨"clubs", "2"⟩ }
    (giveCard midGame "alice" ⟨"clubs", "2"⟩) (by decide) rfl

/-- The session that `givePenalty` returns when the receiver is on the roster:
the session after the optional reshuffle and the optional card, with the record
appended to the log. -/
theorem givePenalty_found (g : Game) (giver receiver reason : String) (now : Nat)
    (rnd : Nat → Nat) {p : Player} (hf : g.players.find? (named receiver) = some p) :
    (givePenalty g giver receiver reason now rnd).1 =
      { Result.ok with penalty := some ⟨giver, receiver, reason, now⟩ } ∧
    (g.deck ≠ [] → ∃ c, g.deck.getLast? = some c ∧
      (givePenalty g giver receiver reason now rnd).2 =
        { giveCard g receiver c with
          penaltyLog := g.penaltyLog ++ [⟨giver, receiver, reason, now⟩] }) ∧
    (g.deck = [] → 1 < g.discardPile.length →
      ∃ c, (reshuffle g rnd).deck.getLast? = some c ∧
      (givePenalty g giver receiver reason now rnd).2 =
        { giveCard (reshuffle g rnd) receiver c with
          penaltyLog := g.penaltyLog ++ [⟨giver, receiver, reason, now⟩] }) ∧
    (g.deck = [] → g.discardPile.length ≤ 1 →
      (givePenalty g giver receiver reason now rnd).2 =
        { g with penaltyLog := g.penaltyLog ++ [⟨giver, receiver, reason, now⟩] }) := by
  refine ⟨by simp [givePenalty, hf], ?_, ?_, ?_⟩
  · intro hd
    cases hlast : g.deck.getLast? with
    | none => exact absurd (List.getLast?_eq_none_iff.mp hlast) hd
    | some c =>
      refine ⟨c, rfl, ?_⟩
      have hc : (g.deck.length == 0 && decide (g.discardPile.length > 1)) = false := by
        simp [hd]
      simp only [givePenalty, hf, hc, Bool.false_eq_true, if_false, hlast]
      rfl
  · intro hd hl
    have hne := reshuffle_deck_ne_nil g rnd hl
    cases hlast : (reshuffle g rnd).deck.getLast? with
    | none => exact absurd (List.getLast?_eq_none_iff.mp hlast) hne
    | some c =>
      refine ⟨c, rfl, ?_⟩
      have hc : (g.deck.length == 0 && decide (g.discardPile.length > 1)) = true := by
        simp [hd, hl]
      simp only [givePenalty, hf, hc, if_true, hlast]
      simp [giveCard, (reshuffle_frame g rnd).2.2.2.2.2.1]
  · intro hd hl
    have hc : (g.deck.length == 0 && decide (g.discardPile.length > 1)) = false := by
      simp [hd]; omega
    have hlast : g.deck.getLast? = none := by simp [hd]
    simp only [givePenalty, hf, hc, Bool.false_eq_true, if_false, hlast]

/-- The deck and the discard pile after the reshuffle of a discard pile with
more than one card. -/
theorem reshuffle_piles (g : Game) (rnd : Nat → Nat) (hl : 1 < g.discardPile.length) :
    (reshuffle g rnd).deck.Perm (g.discardPile.drop 1) ∧
    (reshuffle g rnd).discardPile = g.discardPile.take 1 := by
  unfold reshuffle
  cases hd : g.discardPile with
  | nil => simp [hd] at hl
  | cons topCard rest => exact ⟨shuffleDeck_perm rnd rest, rfl⟩

/-- C13. `givePenalty` fails, with 'Player not found' and the session
unchanged, if and only if no roster entry is named `receiver`.  Otherwise it
returns success with the record `{giver, receiver, reason, timestamp}`, and the
log afterwards is the previous log with that record appended at the end.  When
the deck is not empty or the discard pile has more than one card, the receiver
(the first roster entry with the name) gets exactly one card at the end of the
hand: the last card of the deck, or, when the deck was empty, the last card of
the reshuffled other discard cards, the top discard card staying as the discard
pile.  When the deck is empty and the discard pile has at most one card, the
deck, the discard pile and the roster are unchanged. -/
theorem givePenalty_spec (g : Game) (giver receiver reason : String) (now : Nat)
    (rnd : Nat → Nat) :
    ((givePenalty g giver receiver reason now rnd).1.success = false ↔
      ∀ p ∈ g.players, p.name ≠ receiver) ∧
    ((∀ p ∈ g.players, p.name ≠ receiver) →
      givePenalty g giver receiver reason now rnd = (Result.fail "Player not found", g)) ∧
    (∀ p, g.players.find? (named receiver) = some p →
      (givePenalty g giver receiver reason now rnd).1 =
        { Result.ok with penalty := some ⟨giver, receiver, reason, now⟩ } ∧
      (givePenalty g giver receiver reason now rnd).2.penaltyLog =
        g.penaltyLog ++ [⟨giver, receiver, reason, now⟩] ∧
      ((g.deck ≠ [] ∨ 1 < g.discardPile.length) →
        ∃ c before after,
          g.players = before ++ p :: after ∧ (∀ a ∈ before, a.name ≠ receiver) ∧
          (givePenalty g giver receiver reason now rnd).2.players =
            before ++ { p with hand := p.hand ++ [c], cardCount := p.hand.length + 1 } ::
              after ∧
          (g.deck ≠ [] →
            (givePenalty g giver receiver reason now rnd).2.deck ++ [c] = g.deck ∧
            (givePenalty g giver receiver reason now rnd).2.discardPile = g.discardPile) ∧
          (g.deck = [] →
            ((givePenalty g giver receiver reason now rnd).2.deck ++ [c]).Perm
              (g.discardPile.drop 1) ∧
            (givePenalty g giver receiver reason now rnd).2.discardPile =
              g.discardPile.take 1)) ∧
      ((g.deck = [] ∧ g.discardPile.length ≤ 1) →
        (givePenalty g giver receiver reason now rnd).2.deck = g.deck ∧
        (givePenalty g giver receiver reason now rnd).2.discardPile = g.discardPile ∧
        (givePenalty g giver receiver reason now rnd).2.players = g.players)) := by
  have hnone : (∀ p ∈ g.players, p.name ≠ receiver) →
      givePenalty g giver receiver reason now rnd = (Result.fail "Player not found", g) := by
    intro h
    simp [givePenalty, find?_named_eq_none.mpr h]
  refine ⟨?_, hnone, ?_⟩
  · constructor
    · intro hfail
      cases hf : g.players.find? (named receiver) with
      | none => exact find?_named_eq_none.mp hf
      | some p =>
        rw [(givePenalty_found g giver receiver reason now rnd hf).1] at hfail
        simp [Result.ok] at hfail
    · intro h
      rw [hnone h]
      rfl
  · intro p hf
    obtain ⟨h1, hA, hB, hC⟩ := givePenalty_found g giver receiver reason now rnd hf
    refine ⟨h1, ?_, ?_, ?_⟩
    · by_cases hd : g.deck = []
      · by_cases hl : 1 < g.discardPile.length
        · obtain ⟨c, _, hg⟩ := hB hd hl
          rw [hg]
        · rw [hC hd (by omega)]
      · obtain ⟨c, _, hg⟩ := hA hd
        rw [hg]
    · intro hcard
      by_cases hd : g.deck = []
      · have hl : 1 < g.discardPile.length := by
          rcases hcard with h | h
          · exact absurd hd h
          · exact h
        obtain ⟨c, hlast, hg⟩ := hB hd hl
        have hf' : (reshuffle g rnd).players.find? (named receiver) = some p := by
          rw [players_reshuffle]; exact hf
        obtain ⟨before, after, e1, e2, _, e4⟩ := players_giveCard c hf'
        rw [players_reshuffle] at e1
        have happ : (reshuffle g rnd).deck.dropLast ++ [c] = (reshuffle g rnd).deck :=
          List.dropLast_append_getLast? c (by simp [hlast])
        obtain ⟨p1, p2⟩ := reshuffle_piles g rnd hl
        refine ⟨c, before, after, e1, e2, ?_, fun h => absurd hd h, fun _ => ⟨?_, ?_⟩⟩
        · rw [hg]; exact e4
        · rw [hg]
          show ((reshuffle g rnd).deck.dropLast ++ [c]).Perm _
          rw [happ]
          exact p1
        · rw [hg]
          exact p2
      · obtain ⟨c, hlast, hg⟩ := hA hd
        obtain ⟨before, after, e1, e2, _, e4⟩ := players_giveCard c hf
        have happ : g.deck.dropLast ++ [c] = g.deck :=
          List.dropLast_append_getLast? c (by simp [hlast])
        refine ⟨c, before, after, e1, e2, ?_, fun _ => ⟨?_, ?_⟩, fun h => absurd h hd⟩
        · rw [hg]; exact e4
        · rw [hg]; exact happ
        · rw [hg]; rfl
    · rintro ⟨hd, hl⟩
      rw [hC hd hl]
      exact ⟨rfl, rfl, rfl⟩

/-- C13 at concrete sessions: an unknown receiver, a penalty card from a deck of
two, and a penalty without a card when nothing is left. -/
theorem givePenalty_spec_witness :
    givePenalty midGame "alice" "carol" "talking" 7 noSwap =
      (Result.fail "Player not found", midGame) ∧
    (givePenalty midGame "alice" "bob" "talking" 7 noSwap).2.penaltyLog =
      midGame.penaltyLog ++ [⟨"alice", "bob", "talking", 7⟩] ∧
    (givePenalty stuck "alice" "bob" "talking" 7 noSwap).2.players = stuck.players :=
  ⟨(givePenalty_spec midGame "alice" "carol" "talking" 7 noSwap).2.1 (by decide),
   ((givePenalty_spec midGame "alice" "bob" "talking" 7 noSwap).2.2 bob rfl).2.1,
   (((givePenalty_spec stuck "alice" "bob" "talking" 7 noSwap).2.2 bob rfl).2.2.2
      ⟨rfl, by decide⟩).2.2⟩

/-! ## Hidden information -/

/-- Rosters that agree up to the cards of the hands have the same summaries. -/
theorem summaries_eq_of_sameButHand {ps qs : List Player}
    (h : List.Forall₂ Player.sameButHand ps qs) :
    ps.map (fun p => (⟨p.name, p.isHost, p.cardCount⟩ : PlayerSummary)) =
      qs.map (fun p => (⟨p.name, p.isHost, p.cardCount⟩ : PlayerSummary)) := by
  induction h with
  | nil => rfl
  | cons hpq _ ih =>
    obtain ⟨h1, h2, _, h4⟩ := hpq
    simp [h1, h2, h4, ih]

/-- Rosters that agree up to the cards of the hands have the same name at each
index. -/
theorem name_getElem?_of_sameButHand {ps qs : List Player}
    (h : List.Forall₂ Player.sameButHand ps qs) (i : Nat) :
    (ps[i]?).map (fun p => p.name) = (qs[i]?).map (fun p => p.name) := by
  induction h generalizing i with
  | nil => rfl
  | cons hpq _ ih =>
    cases i with
    | zero => simp [hpq.1]
    | succ i => simpa using ih i

/-- C12. `getPublicGameState` returns equal results on two sessions that agree
on every field except the cards in the players' hands and the cards in the deck,
and its player summaries are the name, `isHost` and `cardCount` of the roster
entries, in order.  `getPlayerData` returns equal results on two sessions in
which the search by the name finds the same roster entry, whatever the other
entries and the decks are, and the result is that entry's hand and
`cardCount`. -/
theorem hidden_information :
    (∀ g h : Game, Game.sameButHiddenCards g h →
      getPublicGameState g = getPublicGameState h) ∧
    (∀ g : Game, (getPublicGameState g).players =
      g.players.map (fun p => ⟨p.name, p.isHost, p.cardCount⟩)) ∧
    (∀ (g h : Game) (playerName : String),
      g.players.find? (named playerName) = h.players.find? (named playerName) →
      getPlayerData g playerName = getPlayerData h playerName) ∧
    (∀ (g : Game) (playerName : String) (p : Player),
      g.players.find? (named playerName) = some p →
      getPlayerData g playerName = some ⟨p.hand, p.cardCount⟩) := by
  refine ⟨?_, fun _ => rfl, ?_, ?_⟩
  · rintro g h ⟨h1, h2, h3, h4, h5, h6, h7, h8, h9, h10, h11, _⟩
    have hs := summaries_eq_of_sameButHand h2
    have hc := name_getElem?_of_sameButHand h2 g.currentPlayerIndex
    simp only [getPublicGameState, getCurrentPlayer]
    rw [hs, hc, h1, h3, h4, h5, h6, h7, h8, h9, h10, h11]
  · intro g h playerName hf
    simp [getPlayerData, hf]
  · intro g playerName p hf
    simp [getPlayerData, hf]

/-- C12 at two sessions that differ in the hands and in the deck only. -/
theorem hidden_information_witness :
    getPublicGameState midGame = getPublicGameState midGameOtherCards ∧
    getPlayerData midGame "bob" = getPlayerData drawnOut "bob" :=
  ⟨hidden_information.1 midGame midGameOtherCards
      ⟨rfl, .cons ⟨rfl, rfl, rfl, rfl⟩ (.cons ⟨rfl, rfl, rfl, rfl⟩ .nil),
        rfl, rfl, rfl, rfl, rfl, rfl, rfl, rfl, rfl, rfl⟩,
   hidden_information.2.2.1 midGame drawnOut "bob" rfl⟩

/-! ## The current-player index -/

set_option maxRecDepth 100000 in
/-- C20 fails on the code.  The session `leftDuringPlay` is reachable: bob
joins, the game starts, alice plays and the turn passes to bob at index 1, and
bob's connection is removed.  `removePlayer` leaves `currentPlayerIndex` at 1
while the roster has one entry, so `getCurrentPlayer` returns `undefined`, and
`drawCard`, `canPlayCard` and `playCard` throw on reading its name. -/
theorem currentPlayerIndex_out_of_range :
    Reachable leftDuringPlay ∧
    leftDuringPlay.players.length = 1 ∧
    leftDuringPlay.currentPlayerIndex = 1 ∧
    leftDuringPlay.gameActive = true ∧
    getCurrentPlayer leftDuringPlay = none ∧
    drawCard leftDuringPlay "alice" noSwap = none ∧
    (∃ p, leftDuringPlay.players.find? (named "alice") = some p ∧
      (⟨"spades", "K"⟩ : Card) ∈ p.hand ∧
      canPlayCard leftDuringPlay p ⟨"spades", "K"⟩ = none) ∧
    playCard leftDuringPlay "alice" ⟨"spades", "K"⟩ ⟨none⟩ = none ∧
    (getPublicGameState leftDuringPlay).currentPlayer = none := by
  refine ⟨.step _ reachable_jackDeclared trivial, by decide, by decide, by decide, by decide,
    by decide, ?_, by decide, by decide⟩
  refine ⟨⟨"alice", true, none,
    [⟨"spades", "K"⟩, ⟨"spades", "Q"⟩, ⟨"spades", "10"⟩], 3⟩, ?_, ?_, ?_⟩ <;>
  decide

/-! ## The host -/

/-- A write that keeps `isHost` keeps the host flags of the roster. -/
theorem updateFirst_isHost (q : Player → Bool) (f : Player → Player)
    (hf : ∀ p, (f p).isHost = p.isHost) :
    ∀ ps : List Player,
      (updateFirst q f ps).map (fun p => p.isHost) = ps.map (fun p => p.isHost)
  | [] => rfl
  | p :: ps => by
    unfold updateFirst
    split
    · simp [hf]
    · simp [updateFirst_isHost q f hf ps]

/-- The deal keeps the host flags, in roster order. -/
theorem dealPlayers_isHost : ∀ (ps : List Player) (deck : List Card),
    (dealPlayers ps deck).1.map (fun p => p.isHost) = ps.map (fun p => p.isHost)
  | [], deck => by simp [dealPlayers]
  | p :: ps, deck => by
    rw [dealPlayers_cons]
    simp [dealPlayers_isHost ps]

/-- `dealCards` keeps the host flags. -/
theorem dealCards_isHost (g : Game) :
    (dealCards g).players.map (fun p => p.isHost) = g.players.map (fun p => p.isHost) := by
  simp only [dealCards]
  split <;> exact dealPlayers_isHost _ _

/-- `generateDeck` does not touch the roster. -/
theorem players_generateDeck (g : Game) (rnd : Nat → Nat) :
    (generateDeck g rnd).players = g.players := by
  simp only [generateDeck]

/-- The host flags after each call other than `addPlayer` and `removePlayer`
are the host flags before it. -/
theorem step_isHost (g : Game) (op : Op) :
    (∃ playerName socketId, op = .addPlayer playerName socketId) ∨
    (∃ socketId, op = .removePlayer socketId) ∨
    (step g op).players.map (fun p => p.isHost) = g.players.map (fun p => p.isHost) := by
  cases op with
  | addPlayer playerName socketId => exact Or.inl ⟨_, _, rfl⟩
  | removePlayer socketId => exact Or.inr (Or.inl ⟨_, rfl⟩)
  | startGame rnd =>
    right; right
    simp only [step, startGame]
    split
    · rfl
    · show (dealCards (generateDeck g rnd)).players.map _ = _
      rw [dealCards_isHost, players_generateDeck]
  | playCard playerName card specialData =>
    right; right
    simp only [step]
    cases h : playCard g playerName card specialData with
    | none => rfl
    | some rg =>
      obtain ⟨r, g'⟩ := rg
      cases hs : r.success with
      | false => rw [playCard_failure h hs]
      | true =>
        obtain ⟨player, _, _, _, hcase⟩ := playCard_success h hs
        have : (afterPlay g playerName card specialData player).players.map
            (fun p => p.isHost) = g.players.map (fun p => p.isHost) := by
          simp only [afterPlay]
          apply updateFirst_isHost
          intro p
          rfl
        rcases hcase with ⟨_, _, rfl⟩ | ⟨_, _, rfl⟩
        · exact this
        · exact this
  | drawCard playerName rnd =>
    right; right
    simp only [step]
    cases h : drawCard g playerName rnd with
    | none => rfl
    | some rg =>
      obtain ⟨r, g'⟩ := rg
      have hgive : ∀ (g0 : Game) (c : Card), (giveCard g0 playerName c).players.map
          (fun p => p.isHost) = g0.players.map (fun p => p.isHost) := by
        intro g0 c
        simp only [giveCard]
        apply updateFirst_isHost
        intro p
        rfl
      rcases drawCard_shape h with ⟨_, rfl⟩ | ⟨p, current, c, _, _, _, _, hcase⟩
      · rfl
      · rcases hcase with ⟨_, _, _, rfl⟩ | ⟨_, _, rfl⟩
        · show (giveCard (reshuffle g rnd) playerName c).players.map _ = _
          rw [hgive, players_reshuffle]
        · exact hgive g c
  | givePenalty giver receiver reason now rnd =>
    right; right
    have hgive : ∀ (g0 : Game) (c : Card), (giveCard g0 receiver c).players.map
        (fun p => p.isHost) = g0.players.map (fun p => p.isHost) := by
      intro g0 c
      simp only [giveCard]
      apply updateFirst_isHost
      intro p
      rfl
    simp only [step]
    cases hf : g.players.find? (named receiver) with
    | none => simp [givePenalty, hf]
    | some p =>
      obtain ⟨_, hA, hB, hC⟩ := givePenalty_found g giver receiver reason now rnd hf
      by_cases hd : g.deck = []
      · by_cases hl : 1 < g.discardPile.length
        · obtain ⟨c, _, hg⟩ := hB hd hl
          rw [hg]
          show (giveCard (reshuffle g rnd) receiver c).players.map _ = _
          rw [hgive, players_reshuffle]
        · rw [hC hd (by omega)]
      · obtain ⟨c, _, hg⟩ := hA hd
        rw [hg]
        exact hgive g c
  | callPointOfOrder playerName =>
    right; right
    simp only [step, callPointOfOrder]
    split <;> rfl
  | endPointOfOrder => right; right; rfl
  | addCustomRule creator rule now => right; right; rfl

/-- Whether the first entry is the only host depends on the host flags only. -/
theorem hostFirst_of_isHost_eq {ps qs : List Player}
    (h : ps.map (fun p => p.isHost) = qs.map (fun p => p.isHost)) (hq : HostFirst qs) :
    HostFirst ps := by
  cases ps with
  | nil => trivial
  | cons p ps =>
    cases qs with
    | nil => simp at h
    | cons q qs =>
      simp only [List.map_cons, List.cons.injEq] at h
      obtain ⟨hq1, hq2⟩ := hq
      refine ⟨by rw [h.1]; exact hq1, ?_⟩
      intro a ha
      have hmem : a.isHost ∈ ps.map (fun p => p.isHost) := List.mem_map.mpr ⟨a, ha, rfl⟩
      rw [h.2] at hmem
      obtain ⟨b, hb, hab⟩ := List.mem_map.mp hmem
      rw [← hab]
      exact hq2 b hb

/-- With the first entry as only host, exactly one entry is a host. -/
theorem countP_isHost_of_hostFirst {p : Player} {ps : List Player}
    (h : HostFirst (p :: ps)) : (p :: ps).countP (fun p => p.isHost) = 1 := by
  obtain ⟨h1, h2⟩ := h
  have h0 : ps.countP (fun p => p.isHost) = 0 := by
    rw [List.countP_eq_zero]
    intro a ha
    simp [h2 a ha]
  simp [List.countP_cons, h1, h0]

/-- `addPlayer` on a roster that is not empty keeps the first entry as the only
host. -/
theorem addPlayer_hostFirst (g : Game) (playerName : String) (socketId : Option String)
    (hne : g.players ≠ []) (h : HostFirst g.players) :
    HostFirst (addPlayer g playerName socketId).2.players := by
  unfold addPlayer
  split
  · exact h
  · split
    · exact h
    · cases hp : g.players with
      | nil => exact absurd hp hne
      | cons p ps =>
        rw [hp] at h
        obtain ⟨h1, h2⟩ := h
        refine ⟨h1, ?_⟩
        intro q hq
        rcases List.mem_append.mp hq with hq | hq
        · exact h2 q hq
        · simp only [List.mem_singleton] at hq
          rw [hq]

/-- The roster after `removePlayer` has removed the host and stays non-empty:
the entry that is first after the removal is made the host. -/
theorem removePlayer_host (g : Game) (socketId : Option String) (idx : Nat) (player : Player)
    (hidx : g.players.findIdx? (fun p => p.socketId == socketId) = some idx)
    (hp : g.players[idx]? = some player) (hhost : player.isHost = true)
    (hne : g.players.eraseIdx idx ≠ []) :
    ∃ p ps, g.players.eraseIdx idx = p :: ps ∧
      (removePlayer g socketId).2.players = { p with isHost := true } :: ps := by
  cases he : g.players.eraseIdx idx with
  | nil => exact absurd he hne
  | cons p ps =>
    refine ⟨p, ps, rfl, ?_⟩
    simp [removePlayer, hidx, hp, hhost, he, makeFirstHost]

/-- `removePlayer` keeps the first entry as the only host. -/
theorem removePlayer_hostFirst (g : Game) (socketId : Option String)
    (h : HostFirst g.players) : HostFirst (removePlayer g socketId).2.players := by
  cases hidx : g.players.findIdx? (fun p => p.socketId == socketId) with
  | none => simpa [removePlayer, hidx] using h
  | some idx =>
    cases hp : g.players[idx]? with
    | none => simpa [removePlayer, hidx, hp] using h
    | some player =>
      cases hg : g.players with
      | nil => simp [hg] at hp
      | cons p ps =>
        rw [hg] at h hp
        obtain ⟨h1, h2⟩ := h
        cases idx with
        | zero =>
          simp only [List.getElem?_cons_zero, Option.some.injEq] at hp
          subst hp
          cases ps with
          | nil =>
            simp only [removePlayer, hidx]
            simp [hg, HostFirst]
          | cons q qs =>
            have : (removePlayer g socketId).2.players = { q with isHost := true } :: qs := by
              simp only [removePlayer, hidx]
              simp [hg, h1, makeFirstHost]
            rw [this]
            exact ⟨rfl, fun a ha => h2 a (List.mem_cons_of_mem _ ha)⟩
        | succ k =>
          simp only [List.getElem?_cons_succ] at hp
          have hfalse : player.isHost = false := h2 player (List.getElem?_mem hp)
          have : (removePlayer g socketId).2.players = p :: ps.eraseIdx k := by
            simp only [removePlayer, hidx]
            simp [hg, hp, hfalse]
          rw [this]
          exact ⟨h1, fun a ha => h2 a ((List.eraseIdx_sublist ps k).subset ha)⟩

/-- While calls are made on non-empty rosters only, the first roster entry is
the host and no other entry is. -/
theorem reachableWhile_hostFirst {g : Game}
    (h : ReachableWhile (fun g => g.players ≠ []) g) : HostFirst g.players := by
  induction h with
  | new roomCode hostName now => simp [Game.new, HostFirst]
  | @step g op _ halive ih =>
    rcases step_isHost g op with ⟨playerName, socketId, rfl⟩ | ⟨socketId, rfl⟩ | hsame
    · exact addPlayer_hostFirst g playerName socketId halive ih
    · exact removePlayer_hostFirst g socketId ih
    · exact hostFirst_of_isHost_eq hsame ih

/-- C16, amended.  In every session reachable from a newly constructed one by
calls made while the roster is not empty: if the roster is not empty, exactly
one player has `isHost` true; and when `removePlayer` removes the host from a
roster that stays non-empty, the player at roster index 0 after the removal is
the host afterwards, and the only one. -/
theorem exactly_one_host (g : Game) (h : ReachableWhile (fun g => g.players ≠ []) g) :
    (g.players ≠ [] → hostCount g = 1) ∧
    (∀ socketId idx player,
      g.players.findIdx? (fun p => p.socketId == socketId) = some idx →
      g.players[idx]? = some player → player.isHost = true →
      g.players.eraseIdx idx ≠ [] →
      ∃ p ps, g.players.eraseIdx idx = p :: ps ∧
        (removePlayer g socketId).2.players = { p with isHost := true } :: ps ∧
        (∀ q ∈ ps, q.isHost = false) ∧
        hostCount (removePlayer g socketId).2 = 1) := by
  have hfirst := reachableWhile_hostFirst h
  refine ⟨?_, ?_⟩
  · intro hne
    cases hp : g.players with
    | nil => exact absurd hp hne
    | cons p ps =>
      rw [hp] at hfirst
      simp only [hostCount, hp]
      exact countP_isHost_of_hostFirst hfirst
  · intro socketId idx player hidx hp hhost hne
    obtain ⟨p, ps, he, hr⟩ := removePlayer_host g socketId idx player hidx hp hhost hne
    have hafter := removePlayer_hostFirst g socketId hfirst
    rw [hr] at hafter
    refine ⟨p, ps, he, hr, hafter.2, ?_⟩
    simp only [hostCount, hr]
    exact countP_isHost_of_hostFirst hafter

/-- The session `twoPlayers` is reached by a call on a non-empty roster. -/
theorem reachableWhile_twoPlayers : ReachableWhile (fun g => g.players ≠ []) twoPlayers :=
  .step _ (.new _ _ _) (by decide)

/-- C16 as amended, at the session `twoPlayers`: one host, and after the host's
entry (socket id `null`) is removed, bob is the host. -/
theorem exactly_one_host_witness :
    hostCount twoPlayers = 1 ∧
    ∃ p ps, twoPlayers.players.eraseIdx 0 = p :: ps ∧
      (removePlayer twoPlayers none).2.players = { p with isHost := true } :: ps ∧
      (∀ q ∈ ps, q.isHost = false) ∧
      hostCount (removePlayer twoPlayers none).2 = 1 :=
  ⟨(exactly_one_host twoPlayers reachableWhile_twoPlayers).1 (by decide),
   (exactly_one_host twoPlayers reachableWhile_twoPlayers).2 none 0
     ⟨"alice", true, none, [], 0⟩ (by decide) (by decide) rfl (by decide)⟩

/-- C16 fails as stated: the session `hostless` is reachable, by removing the
host's entry from the lobby and adding bob to the empty roster, and its roster
of one player has no host. -/
theorem exactly_one_host_counterexample :
    Reachable hostless ∧ hostless.players ≠ [] ∧ hostCount hostless = 0 ∧
    (step lobby (.removePlayer none)).players = [] :=
  ⟨.step _ (.step _ (.new _ _ _) trivial) trivial, by decide, by decide, by decide⟩

/-! ## The hand fan-out -/

set_option maxRecDepth 100000 in
/-- C11 fails on the code.  On the server `twoRooms`, socket `s1` is registered
for room `AAAAAA` as alice, and sockets `s2` and `s3` are registered for room
`BBBBBB` as alice and bob.  When `s2`, the host of room `BBBBBB`, starts the
game, the fan-out selects for alice of room `BBBBBB` the first registry entry
named alice, which is `s1`: her hand is sent to a connection of room `AAAAAA`,
and not to her own connection `s2`. -/
theorem hand_sent_to_other_room :
    mapGet twoRooms.playerSockets "s1" = some ⟨"AAAAAA", "alice"⟩ ∧
    mapGet twoRooms.playerSockets "s2" = some ⟨"BBBBBB", "alice"⟩ ∧
    (mapGet twoRooms.games "BBBBBB").map
        (fun game => game.players.map (fun p => (p.name, p.socketId))) =
      some [("alice", some "s2"), ("bob", some "s3")] ∧
    handSocket twoRooms.playerSockets "alice" = some "s1" ∧
    (startGameHandler twoRooms "s2" noSwap).1 =
      .gameStarted
        [("s1", [⟨"spades", "K"⟩, ⟨"spades", "Q"⟩, ⟨"spades", "J"⟩, ⟨"spades", "10"⟩]),
         ("s3", [⟨"spades", "9"⟩, ⟨"spades", "8"⟩, ⟨"spades", "7"⟩, ⟨"spades", "6"⟩])] := by
  refine ⟨by decide, by decide, by decide, by decide, by decide⟩

/-! ## Creating a room -/

/-- A key that has just been set holds the value. -/
theorem mapGet_mapSet_self {α : Type} (m : List (String × α)) (k : String) (v : α) :
    mapGet (mapSet m k v) k = some v := by
  unfold mapSet mapGet
  split
  · next hany =>
    induction m with
    | nil => simp at hany
    | cons e m ih =>
      by_cases he : e.1 = k
      · simp [List.find?, he]
      · have hany' : m.any (fun e => e.1 == k) = true := by
          simpa [List.any_cons, he] using hany
        simp only [List.map_cons, he, if_false, beq_iff_eq, List.find?]
        have hb : (e.1 == k) = false := by simpa using he
        simp only [hb]
        simpa using ih hany'
  · next hany =>
    have hnone : m.find? (fun e => e.1 == k) = none := by
      rw [List.find?_eq_none]
      intro x hx hk
      exact hany (List.any_eq_true.mpr ⟨x, hx, hk⟩)
    simp [List.find?_append, hnone]

/-- Setting a key leaves the values of the other keys as they were. -/
theorem mapGet_mapSet_ne {α : Type} (m : List (String × α)) (k k' : String) (v : α)
    (hne : k' ≠ k) : mapGet (mapSet m k v) k' = mapGet m k' := by
  have hkk : (k == k') = false := by
    simpa using fun h => hne h.symm
  have hmap : ∀ m : List (String × α),
      (List.find? (fun e => e.1 == k')
        (m.map (fun e => if e.1 == k then (k, v) else e))).map (fun e => e.2) =
      (m.find? (fun e => e.1 == k')).map (fun e => e.2) := by
    intro m
    induction m with
    | nil => rfl
    | cons e m ih =>
      by_cases he : e.1 = k
      · have hb : (e.1 == k') = false := by
          rw [he]; exact hkk
        simp only [List.map_cons, he, beq_self_eq_true, if_true, List.find?, hkk, hb]
        exact ih
      · have hb : (e.1 == k) = false := by simpa using he
        simp only [List.map_cons, hb, Bool.false_eq_true, if_false, List.find?]
        cases hk' : (e.1 == k') with
        | true => rfl
        | false => exact ih
  unfold mapSet mapGet
  split
  · exact hmap m
  · cases hf : m.find? (fun e => e.1 == k') with
    | none => simp [List.find?_append, hf, hkk]
    | some x => simp [List.find?_append, hf]

/-- C17, amended.  `createParty` does not validate the host name: for every
registry state and every host name, the empty string included, it replies
`partyCreated` with the room code and the host as the only player, and stores
under the room code a new session whose only roster entry is the host with that
name. -/
theorem createParty_any_name (srv : Server) (socketId hostName roomCode : String) (now : Nat) :
    (createParty srv socketId hostName roomCode now).1 =
      .partyCreated roomCode [(hostName, true)] ∧
    mapGet (createParty srv socketId hostName roomCode now).2.games roomCode =
      some (setHostSocket (Game.new roomCode hostName now) socketId) ∧
    (setHostSocket (Game.new roomCode hostName now) socketId).players =
      [⟨hostName, true, some socketId, [], 0⟩] := by
  refine ⟨rfl, ?_, rfl⟩
  simp only [createParty]
  exact mapGet_mapSet_self _ _ _

/-- C17 fails as stated: on the empty server, `createParty` with the empty host
name replies `partyCreated`, not an error, and a session whose host has the
empty name is added to the registry. -/
theorem createParty_empty_name_counterexample :
    mapGet emptyServer.games "AAAAAA" = none ∧
    (createParty emptyServer "s1" "" "AAAAAA" 0).1 = .partyCreated "AAAAAA" [("", true)] ∧
    (mapGet (createParty emptyServer "s1" "" "AAAAAA" 0).2.games "AAAAAA").map
        (fun game => game.players.map (fun p => p.name)) = some [""] := by
  refine ⟨by decide, by decide, by decide⟩

/-- C18, amended.  With the generated room code as an input, `createParty`
stores the new session under the generated code, and every session stored under
another identifier is still there, unchanged.  No collision check is made: when
the generated code is not a key of the registry, every session that was in the
registry before is still there, unchanged, under its own identifier. -/
theorem createParty_registry (srv : Server) (socketId hostName roomCode : String) (now : Nat) :
    mapGet (createParty srv socketId hostName roomCode now).2.games roomCode =
      some (setHostSocket (Game.new roomCode hostName now) socketId) ∧
    (∀ k, k ≠ roomCode →
      mapGet (createParty srv socketId hostName roomCode now).2.games k =
        mapGet srv.games k) ∧
    (mapGet srv.games roomCode = none →
      ∀ k game, mapGet srv.games k = some game →
        k ≠ roomCode ∧
        mapGet (createParty srv socketId hostName roomCode now).2.games k = some game) := by
  have hne : ∀ k, k ≠ roomCode →
      mapGet (createParty srv socketId hostName roomCode now).2.games k =
        mapGet srv.games k := by
    intro k hk
    simp only [createParty]
    exact mapGet_mapSet_ne _ _ _ _ hk
  refine ⟨?_, hne, ?_⟩
  · simp only [createParty]
    exact mapGet_mapSet_self _ _ _
  · intro hfresh k game hk
    have hkne : k ≠ roomCode := by
      rintro rfl
      rw [hfresh] at hk
      cases hk
    exact ⟨hkne, by rw [hne k hkne, hk]⟩

/-- C18 as amended, at the server `oneRoom`: a room created under the fresh code
`BBBBBB` leaves room `AAAAAA` as it was. -/
theorem createParty_registry_witness :
    mapGet oneRoom.games "BBBBBB" = none ∧
    mapGet (createParty oneRoom "s2" "alice" "BBBBBB" 1).2.games "AAAAAA" =
      mapGet oneRoom.games "AAAAAA" :=
  ⟨by decide,
   (createParty_registry oneRoom "s2" "alice" "BBBBBB" 1).2.1 "AAAAAA" (by decide)⟩

/-- C17 as amended, at the empty host name. -/
theorem createParty_any_name_witness :
    (createParty emptyServer "s1" "" "AAAAAA" 0).1 = .partyCreated "AAAAAA" [("", true)] :=
  (createParty_any_name emptyServer "s1" "" "AAAAAA" 0).1

/-- C18 fails as stated: on the server `oneRoom`, where `AAAAAA` is the key of
alice's room, a `createParty` by bob whose generated code is `AAAAAA` stores the
new session under a key that was in the registry, and alice's room is replaced
by bob's. -/
theorem createParty_collision_counterexample :
    (mapGet oneRoom.games "AAAAAA").map
        (fun game => game.players.map (fun p => p.name)) = some ["alice"] ∧
    (mapGet (createParty oneRoom "s2" "bob" "AAAAAA" 1).2.games "AAAAAA").map
        (fun game => game.players.map (fun p => p.name)) = some ["bob"] ∧
    (createParty oneRoom "s2" "bob" "AAAAAA" 1).2.games.length = 1 := by
  refine ⟨by decide, by decide, by decide⟩

/-! ## The shuffle as a bijection -/

/-- The elements of the deck after the swap of line 119. -/
theorem swap_getElem? (deck : List Card) (i j k : Nat) (hi : i < deck.length)
    (hj : j < deck.length) :
    (swap deck i j)[k]? =
      if k = j then deck[i]? else if k = i then deck[j]? else deck[k]? := by
  have ha : deck[i]? = some deck[i] := List.getElem?_eq_getElem hi
  have hb : deck[j]? = some deck[j] := List.getElem?_eq_getElem hj
  simp only [swap, ha, hb]
  rw [List.getElem?_set, List.getElem?_set]
  simp only [List.length_set]
  by_cases hkj : k = j
  · subst hkj
    simp [hj]
  · have hjk : ¬ j = k := fun h => hkj h.symm
    by_cases hki : k = i
    · subst hki
      simp [hjk, hkj, hi]
    · have hik : ¬ i = k := fun h => hki h.symm
      simp [hjk, hkj, hik, hki]

/-- The swap of line 119 keeps the length of the deck. -/
theorem swap_length (deck : List Card) (i j : Nat) : (swap deck i j).length = deck.length :=
  (swap_perm deck i j).length_eq

/-- The loop of `shuffleDeck` keeps the length of the deck. -/
theorem shuffleLoop_length (rnd : Nat → Nat) (i : Nat) (deck : List Card) :
    (shuffleLoop rnd i deck).length = deck.length :=
  (shuffleLoop_perm rnd i deck).length_eq

/-- The loop of `shuffleDeck` from index `i` down leaves the positions above `i`
as they are. -/
theorem shuffleLoop_getElem?_above (rnd : Nat → Nat) :
    ∀ (i : Nat) (deck : List Card) (k : Nat), i < k →
      (shuffleLoop rnd i deck)[k]? = deck[k]?
  | 0, _, _, _ => rfl
  | i + 1, deck, k, hk => by
    simp only [shuffleLoop]
    rw [shuffleLoop_getElem?_above rnd i _ k (by omega)]
    by_cases hlen : i + 1 < deck.length
    · have hj : rnd (i + 1) % (i + 2) < i + 2 := Nat.mod_lt _ (by omega)
      rw [swap_getElem? deck _ _ k hlen (by omega)]
      have h1 : ¬ k = rnd (i + 1) % (i + 2) := by omega
      have h2 : ¬ k = i + 1 := by omega
      simp [h1, h2]
    · have hnone : deck[i + 1]? = none := List.getElem?_eq_none (by omega)
      simp [swap, hnone]

/-- The step of the loop at index `i + 1` puts the chosen element there for
good. -/
theorem shuffleLoop_getElem?_top (rnd : Nat → Nat) (i : Nat) (deck : List Card)
    (hlen : i + 1 < deck.length) :
    (shuffleLoop rnd (i + 1) deck)[i + 1]? = deck[rnd (i + 1) % (i + 2)]? := by
  have hj : rnd (i + 1) % (i + 2) < i + 2 := Nat.mod_lt _ (by omega)
  simp only [shuffleLoop]
  rw [shuffleLoop_getElem?_above rnd i _ (i + 1) (by omega)]
  rw [swap_getElem? deck _ _ (i + 1) hlen (by omega)]
  by_cases h : i + 1 = rnd (i + 1) % (i + 2)
  · simp [← h]
  · simp [h]

/-- The loop of `shuffleDeck` from index `i` down reads the random draws of the
indices 1 to `i` only, each reduced to its range. -/
theorem shuffleLoop_congr (rnd rnd' : Nat → Nat) :
    ∀ (i : Nat) (deck : List Card),
      (∀ k, 1 ≤ k → k ≤ i → rnd k % (k + 1) = rnd' k % (k + 1)) →
      shuffleLoop rnd i deck = shuffleLoop rnd' i deck
  | 0, _, _ => rfl
  | i + 1, deck, h => by
    simp only [shuffleLoop]
    rw [h (i + 1) (by omega) (by omega)]
    exact shuffleLoop_congr rnd rnd' i _ (fun k h1 h2 => h k h1 (by omega))

/-- On a deck of distinct cards, the result of the loop determines the draws. -/
theorem shuffleLoop_injective (rnd rnd' : Nat → Nat) :
    ∀ (i : Nat) (deck : List Card), deck.Nodup → i < deck.length →
      shuffleLoop rnd i deck = shuffleLoop rnd' i deck →
      ∀ k, 1 ≤ k → k ≤ i → rnd k % (k + 1) = rnd' k % (k + 1)
  | 0, _, _, _, _ => fun k h1 h2 => by omega
  | i + 1, deck, hn, hlen, heq => by
    have hj : rnd (i + 1) % (i + 2) < i + 2 := Nat.mod_lt _ (by omega)
    have htop : deck[rnd (i + 1) % (i + 2)]? = deck[rnd' (i + 1) % (i + 2)]? := by
      rw [← shuffleLoop_getElem?_top rnd i deck hlen, ← shuffleLoop_getElem?_top rnd' i deck hlen,
        heq]
    have hjj : rnd (i + 1) % (i + 2) = rnd' (i + 1) % (i + 2) :=
      List.getElem?_inj (by omega) hn htop
    have heq' : shuffleLoop rnd i (swap deck (i + 1) (rnd (i + 1) % (i + 2))) =
        shuffleLoop rnd' i (swap deck (i + 1) (rnd (i + 1) % (i + 2))) := by
      have := heq
      simp only [shuffleLoop] at this
      rw [← hjj] at this
      exact this
    have ih := shuffleLoop_injective rnd rnd' i _
      ((swap_perm deck _ _).nodup_iff.mpr hn) (by rw [swap_length]; omega) heq'
    intro k h1 h2
    by_cases hk : k = i + 1
    · subst hk
      exact hjj
    · exact ih k h1 (by omega)

/-- An ordering of a deck of distinct cards that agrees with the deck at every
position above 0 is the deck. -/
theorem eq_of_perm_of_getElem?_above_zero {l deck : List Card} (hn : deck.Nodup)
    (hp : l.Perm deck) (h : ∀ k, 0 < k → l[k]? = deck[k]?) : l = deck := by
  have hln : l.Nodup := hp.nodup_iff.mpr hn
  cases l with
  | nil => exact (List.Perm.nil_eq hp)
  | cons x l' =>
    cases deck with
    | nil => exact absurd hp.length_eq (by simp)
    | cons y d' =>
      have htail : l' = d' := by
        apply List.ext_getElem?
        intro n
        have := h (n + 1) (by omega)
        simpa using this
      subst htail
      have hx : x ∈ y :: l' := hp.subset (List.mem_cons_self _ _)
      rcases List.mem_cons.mp hx with rfl | hx
      · rfl
      · exact absurd hx (List.nodup_cons.mp hln).1

/-- On a deck of distinct cards, the loop from index `i` down reaches every
ordering of the deck that agrees with it above `i`. -/
theorem shuffleLoop_surjective :
    ∀ (i : Nat) (deck l : List Card), deck.Nodup → i < deck.length → l.Perm deck →
      (∀ k, i < k → l[k]? = deck[k]?) → ∃ rnd, shuffleLoop rnd i deck = l
  | 0, deck, l, hn, _, hp, h =>
    ⟨fun _ => 0, (eq_of_perm_of_getElem?_above_zero hn hp h).symm⟩
  | i + 1, deck, l, hn, hlen, hp, h => by
    have hln : l.Nodup := hp.nodup_iff.mpr hn
    have hll : l.length = deck.length := hp.length_eq
    have hx : l[i + 1]? = some l[i + 1] := List.getElem?_eq_getElem (by omega)
    have hmem : l[i + 1] ∈ deck := hp.subset (List.getElem_mem _)
    obtain ⟨j, hj⟩ := List.mem_iff_getElem?.mp hmem
    have hjlen : j < deck.length := (List.getElem?_eq_some_iff.mp hj).1
    have hjle : j ≤ i + 1 := by
      by_contra hgt
      have h1 : l[j]? = l[i + 1]? := by
        rw [h j (by omega), hj, hx]
      have := List.getElem?_inj (by omega) hln h1
      omega
    have hmod : j % (i + 2) = j := Nat.mod_eq_of_lt (by omega)
    have hagree : ∀ k, i < k → l[k]? = (swap deck (i + 1) j)[k]? := by
      intro k hk
      rw [swap_getElem? deck _ _ k hlen hjlen]
      by_cases hkj : k = j
      · have hki : k = i + 1 := by omega
        have hji : j = i + 1 := by omega
        rw [if_pos hkj, hki, hx, ← hj, hji]
      · by_cases hki : k = i + 1
        · subst hki
          rw [if_neg hkj, if_pos rfl, hx, hj]
        · rw [if_neg hkj, if_neg hki]
          exact h k (by omega)
    obtain ⟨rnd0, h0⟩ := shuffleLoop_surjective i (swap deck (i + 1) j) l
      ((swap_perm deck _ _).nodup_iff.mpr hn) (by rw [swap_length]; omega)
      (hp.trans (swap_perm deck _ _).symm) hagree
    refine ⟨fun k => if k = i + 1 then j else rnd0 k, ?_⟩
    simp only [shuffleLoop, if_true, hmod]
    rw [← h0]
    apply shuffleLoop_congr
    intro k _ hk
    have : ¬ k = i + 1 := by omega
    simp [this]

/-- The draw of a choice sequence at the loop index `k + 1`. -/
theorem Choices.rnd_succ {n : Nat} (c : Choices n) (k : Nat) (h : k < n - 1) :
    c.rnd (k + 1) = (c ⟨k, h⟩).val := by
  simp [Choices.rnd, h]

/-- The number of choice sequences for a deck of `n` cards is `n!`. -/
theorem card_choices (n : Nat) : Fintype.card (Choices n) = n.factorial := by
  have hprod : ∀ m : Nat, ∏ k ∈ Finset.range m, (k + 2) = (m + 1).factorial := by
    intro m
    induction m with
    | zero => rfl
    | succ m ih =>
      rw [Finset.prod_range_succ, ih, Nat.factorial_succ (m + 1)]
      ring
  have hcard : Fintype.card (Choices n) = ∏ k : Fin (n - 1), (k.val + 2) := by
    unfold Choices
    rw [Fintype.card_pi]
    simp
  rw [hcard, Fin.prod_univ_eq_prod_range (fun k => k + 2) (n - 1), hprod]
  cases n with
  | zero => rfl
  | succ n => simp

/-- On a deck of distinct cards two sequences of draws give the same ordering
exactly when they make the same choice at every loop index. -/
theorem shuffleDeck_eq_iff (deck : List Card) (hn : deck.Nodup) (rnd rnd' : Nat → Nat) :
    shuffleDeck rnd deck = shuffleDeck rnd' deck ↔
      ∀ i, 1 ≤ i → i < deck.length → rnd i % (i + 1) = rnd' i % (i + 1) := by
  unfold shuffleDeck
  constructor
  · intro h i h1 h2
    exact shuffleLoop_injective rnd rnd' (deck.length - 1) deck hn (by omega) h i h1 (by omega)
  · intro h
    apply shuffleLoop_congr
    intro k h1 h2
    by_cases hk : k < deck.length
    · exact h k h1 hk
    · omega

/-- On a deck of distinct cards every ordering of the deck is the result of some
sequence of draws. -/
theorem shuffleDeck_surjective (deck : List Card) (hn : deck.Nodup) (l : List Card)
    (hp : l.Perm deck) : ∃ rnd, shuffleDeck rnd deck = l := by
  unfold shuffleDeck
  by_cases hlen : 0 < deck.length
  · apply shuffleLoop_surjective (deck.length - 1) deck l hn (by omega) hp
    intro k hk
    have hll := hp.length_eq
    rw [List.getElem?_eq_none (by omega), List.getElem?_eq_none (by omega)]
  · have hd : deck = [] := List.length_eq_zero.mp (by omega)
    subst hd
    exact ⟨fun _ => 0, (List.Perm.eq_nil hp).symm⟩

/-- C14. With the random draws as an input, `shuffleDeck` returns a
rearrangement of the deck for every sequence of draws.  For a deck of `n`
distinct cards, two sequences of draws give the same ordering exactly when they
make the same choice `j` at every loop index `i` from `n - 1` down to 1; every
ordering of the deck is the result of exactly one choice sequence; and there
are `n!` choice sequences and `n!` orderings.  So each ordering comes from one
of `n!` choice sequences, and is equally likely when the choices are
independent and uniform. -/
theorem shuffleDeck_bijection :
    (∀ (rnd : Nat → Nat) (deck : List Card), (shuffleDeck rnd deck).Perm deck) ∧
    (∀ deck : List Card, deck.Nodup →
      (∀ rnd rnd' : Nat → Nat, shuffleDeck rnd deck = shuffleDeck rnd' deck ↔
        ∀ i, 1 ≤ i → i < deck.length → rnd i % (i + 1) = rnd' i % (i + 1)) ∧
      (∀ l : List Card, l.Perm deck →
        ∃! c : Choices deck.length, shuffleDeck c.rnd deck = l) ∧
      Function.Bijective
        (fun c : Choices deck.length =>
          (⟨shuffleDeck c.rnd deck, shuffleDeck_perm c.rnd deck⟩ :
            { l : List Card // l.Perm deck })) ∧
      deck.permutations.length = deck.length.factorial ∧
      (∀ l : List Card, l ∈ deck.permutations ↔ l.Perm deck)) ∧
    (∀ n : Nat, Fintype.card (Choices n) = n.factorial) := by
  refine ⟨shuffleDeck_perm, ?_, card_choices⟩
  intro deck hn
  have huniq : ∀ l : List Card, l.Perm deck →
      ∃! c : Choices deck.length, shuffleDeck c.rnd deck = l := by
    intro l hp
    obtain ⟨rnd, hr⟩ := shuffleDeck_surjective deck hn l hp
    refine ⟨fun k => ⟨rnd (k.val + 1) % (k.val + 2), Nat.mod_lt _ (by omega)⟩, ?_, ?_⟩
    · show shuffleDeck _ deck = l
      rw [← hr, shuffleDeck_eq_iff deck hn]
      intro i h1 h2
      obtain ⟨k, rfl⟩ : ∃ k, i = k + 1 := ⟨i - 1, by omega⟩
      rw [Choices.rnd_succ _ k (by omega)]
      simp
    · intro c' hc'
      have hc : shuffleDeck c'.rnd deck = shuffleDeck rnd deck := by rw [hc', hr]
      have hiff := (shuffleDeck_eq_iff deck hn c'.rnd rnd).mp hc
      funext k
      apply Fin.ext
      have hk := hiff (k.val + 1) (by omega) (by have := k.isLt; omega)
      rw [Choices.rnd_succ c' k.val k.isLt] at hk
      have hlt : (c' k).val < k.val + 2 := (c' k).isLt
      rw [Nat.mod_eq_of_lt hlt] at hk
      exact hk
  refine ⟨shuffleDeck_eq_iff deck hn, huniq, ?_, List.length_permutations deck,
    fun l => List.mem_permutations⟩
  constructor
  · intro c c' h
    have h' : shuffleDeck c.rnd deck = shuffleDeck c'.rnd deck := congrArg Subtype.val h
    obtain ⟨c0, _, hu⟩ := huniq (shuffleDeck c'.rnd deck) (shuffleDeck_perm _ _)
    rw [hu c h', hu c' rfl]
  · rintro ⟨l, hp⟩
    obtain ⟨c, hc, _⟩ := huniq l hp
    exact ⟨c, Subtype.ext hc⟩

/-- C14 at the three discard cards of `drawnOut`: one choice sequence yields the
ordering that puts the last card first. -/
theorem shuffleDeck_bijection_witness :
    ∃! c : Choices drawnOut.discardPile.length,
      shuffleDeck c.rnd drawnOut.discardPile =
        [⟨"clubs", "2"⟩, ⟨"hearts", "5"⟩, ⟨"diamonds", "9"⟩] :=
  (shuffleDeck_bijection.2.1 drawnOut.discardPile (by decide)).2.1 _ (by decide)

/-! ## Chat mute and point of order -/

/-- `dealCards` writes the roster, the deck and the discard pile only. -/
theorem dealCards_pointOfOrder (g : Game) :
    (dealCards g).pointOfOrderActive = g.pointOfOrderActive ∧
    (dealCards g).pointOfOrderCaller = g.pointOfOrderCaller := by
  simp only [dealCards]
  split <;> exact ⟨rfl, rfl⟩

/-- The point-of-order fields and `chatMuted` after `giveCard`. -/
theorem giveCard_pointOfOrder (g : Game) (playerName : String) (c : Card) :
    (giveCard g playerName c).pointOfOrderActive = g.pointOfOrderActive ∧
    (giveCard g playerName c).pointOfOrderCaller = g.pointOfOrderCaller ∧
    (giveCard g playerName c).chatMuted = g.chatMuted :=
  ⟨rfl, rfl, rfl⟩

/-- What one call does to `pointOfOrderActive`, `pointOfOrderCaller` and
`chatMuted`: a successful `callPointOfOrder` opens the point of order and
unmutes, `endPointOfOrder` closes it and mutes, `startGame` mutes and leaves the
point of order as it is, and every other call leaves the three fields as they
are. -/
theorem step_pointOfOrder (g : Game) (op : Op) :
    (∃ playerName, op = .callPointOfOrder playerName ∧ g.pointOfOrderActive = false ∧
      (step g op).pointOfOrderActive = true ∧
      (step g op).pointOfOrderCaller = some playerName ∧ (step g op).chatMuted = false) ∨
    ((step g op).pointOfOrderActive = false ∧ (step g op).pointOfOrderCaller = none ∧
      (step g op).chatMuted = true) ∨
    (op.isStartGame = true ∧ (step g op).pointOfOrderActive = g.pointOfOrderActive ∧
      (step g op).pointOfOrderCaller = g.pointOfOrderCaller ∧
      (step g op).chatMuted = true) ∨
    ((step g op).pointOfOrderActive = g.pointOfOrderActive ∧
      (step g op).pointOfOrderCaller = g.pointOfOrderCaller ∧
      (step g op).chatMuted = g.chatMuted) := by
  cases op with
  | addPlayer playerName socketId =>
    right; right; right
    simp only [step, addPlayer]
    split
    · exact ⟨rfl, rfl, rfl⟩
    · split <;> exact ⟨rfl, rfl, rfl⟩
  | removePlayer socketId =>
    right; right; right
    simp only [step, removePlayer]
    split
    · exact ⟨rfl, rfl, rfl⟩
    · split
      · exact ⟨rfl, rfl, rfl⟩
      · split <;> exact ⟨rfl, rfl, rfl⟩
  | startGame rnd =>
    simp only [step, startGame]
    split
    · right; right; right
      exact ⟨rfl, rfl, rfl⟩
    · right; right; left
      obtain ⟨h1, h2⟩ := dealCards_pointOfOrder (generateDeck g rnd)
      refine ⟨rfl, ?_, ?_, rfl⟩
      · show (dealCards (generateDeck g rnd)).pointOfOrderActive = _
        rw [h1]
        simp only [generateDeck]
      · show (dealCards (generateDeck g rnd)).pointOfOrderCaller = _
        rw [h2]
        simp only [generateDeck]
  | playCard playerName card specialData =>
    right; right; right
    simp only [step]
    cases h : playCard g playerName card specialData with
    | none => exact ⟨rfl, rfl, rfl⟩
    | some rg =>
      obtain ⟨r, g'⟩ := rg
      cases hs : r.success with
      | false =>
        rw [playCard_failure h hs]
        exact ⟨rfl, rfl, rfl⟩
      | true =>
        obtain ⟨player, _, _, _, hcase⟩ := playCard_success h hs
        rcases hcase with ⟨_, _, rfl⟩ | ⟨_, _, rfl⟩ <;> exact ⟨rfl, rfl, rfl⟩
  | drawCard playerName rnd =>
    right; right; right
    simp only [step]
    cases h : drawCard g playerName rnd with
    | none => exact ⟨rfl, rfl, rfl⟩
    | some rg =>
      obtain ⟨r, g'⟩ := rg
      rcases drawCard_shape h with ⟨_, rfl⟩ | ⟨p, current, c, _, _, _, _, hcase⟩
      · exact ⟨rfl, rfl, rfl⟩
      · rcases hcase with ⟨_, _, _, rfl⟩ | ⟨_, _, rfl⟩
        · obtain ⟨_, _, f3, f4, f5, _⟩ := reshuffle_frame g rnd
          exact ⟨f3, f4, f5⟩
        · exact ⟨rfl, rfl, rfl⟩
  | givePenalty giver receiver reason now rnd =>
    right; right; right
    simp only [step]
    cases hf : g.players.find? (named receiver) with
    | none =>
      have hs : givePenalty g giver receiver reason now rnd =
          (Result.fail "Player not found", g) := by
        simp [givePenalty, hf]
      rw [hs]
      exact ⟨rfl, rfl, rfl⟩
    | some p =>
      obtain ⟨_, hA, hB, hC⟩ := givePenalty_found g giver receiver reason now rnd hf
      by_cases hd : g.deck = []
      · by_cases hl : 1 < g.discardPile.length
        · obtain ⟨c, _, hg⟩ := hB hd hl
          rw [hg]
          obtain ⟨_, _, f3, f4, f5, _⟩ := reshuffle_frame g rnd
          exact ⟨f3, f4, f5⟩
        · rw [hC hd (by omega)]
          exact ⟨rfl, rfl, rfl⟩
      · obtain ⟨c, _, hg⟩ := hA hd
        rw [hg]
        exact ⟨rfl, rfl, rfl⟩
  | callPointOfOrder playerName =>
    by_cases hact : g.pointOfOrderActive = true
    · right; right; right
      have hs : step g (.callPointOfOrder playerName) = g := by
        simp [step, callPointOfOrder, hact]
      rw [hs]
      exact ⟨rfl, rfl, rfl⟩
    · left
      have hs : step g (.callPointOfOrder playerName) =
          { g with pointOfOrderActive := true, pointOfOrderCaller := some playerName,
                   chatMuted := false } := by
        simp [step, callPointOfOrder, hact]
      rw [hs]
      exact ⟨playerName, rfl, by simpa using hact, rfl, rfl, rfl⟩
  | endPointOfOrder =>
    right; left
    exact ⟨rfl, rfl, rfl⟩
  | addCustomRule creator rule now =>
    right; right; right
    exact ⟨rfl, rfl, rfl⟩

/-- C21, amended.  In every session reachable from a newly constructed one by
any sequence of calls, `pointOfOrderCaller` is set if and only if
`pointOfOrderActive` is true, `chatMuted` is false only while
`pointOfOrderActive` is true, and the guard of the chat handler refuses a
message if and only if `pointOfOrderActive` is false.  In every session reachable
by calls among which `startGame` is made only while no point of order is open,
`chatMuted` is true if and only if `pointOfOrderActive` is false. -/
theorem chat_mute_and_point_of_order :
    (∀ g : Game, Reachable g →
      (g.pointOfOrderCaller ≠ none ↔ g.pointOfOrderActive = true) ∧
      (g.chatMuted = false → g.pointOfOrderActive = true) ∧
      chatBlocked g = !g.pointOfOrderActive) ∧
    (∀ g : Game,
      ReachableBy (fun g op => op.isStartGame = true → g.pointOfOrderActive = false) g →
      (g.chatMuted = true ↔ g.pointOfOrderActive = false)) := by
  refine ⟨?_, ?_⟩
  · intro g hreach
    have hinv : (g.pointOfOrderCaller ≠ none ↔ g.pointOfOrderActive = true) ∧
        (g.chatMuted = false → g.pointOfOrderActive = true) := by
      induction hreach with
      | new roomCode hostName now => simp [Game.new]
      | @step g op _ _ ih =>
        obtain ⟨ih1, ih2⟩ := ih
        rcases step_pointOfOrder g op with
          ⟨playerName, _, _, h1, h2, h3⟩ | ⟨h1, h2, h3⟩ | ⟨_, h1, h2, h3⟩ | ⟨h1, h2, h3⟩
        · rw [h1, h2, h3]; simp
        · rw [h1, h2, h3]; simp
        · rw [h1, h2, h3]; exact ⟨ih1, by simp⟩
        · rw [h1, h2, h3]; exact ⟨ih1, ih2⟩
    refine ⟨hinv.1, hinv.2, ?_⟩
    unfold chatBlocked
    cases hm : g.chatMuted with
    | true => simp
    | false => simp [hinv.2 hm]
  · intro g hreach
    induction hreach with
    | new roomCode hostName now => simp [Game.new]
    | @step g op _ hok ih =>
      rcases step_pointOfOrder g op with
        ⟨playerName, _, _, h1, h2, h3⟩ | ⟨h1, h2, h3⟩ | ⟨hstart, h1, h2, h3⟩ | ⟨h1, h2, h3⟩
      · rw [h1, h3]; simp
      · rw [h1, h3]; simp
      · rw [h1, h3, hok hstart]; simp
      · rw [h1, h3]; exact ih

/-- The session `orderCalled` is reachable. -/
theorem reachable_orderCalled : Reachable orderCalled :=
  .step _ reachable_twoPlayers trivial

/-- C21 as amended, at the session `orderCalled`, reached without `startGame`:
the point of order is open, bob is its caller and chat is not muted. -/
theorem chat_mute_and_point_of_order_witness :
    orderCalled.pointOfOrderActive = true ∧
    (orderCalled.pointOfOrderCaller ≠ none ↔ orderCalled.pointOfOrderActive = true) ∧
    chatBlocked orderCalled = !orderCalled.pointOfOrderActive ∧
    (orderCalled.chatMuted = true ↔ orderCalled.pointOfOrderActive = false) :=
  ⟨by decide,
   (chat_mute_and_point_of_order.1 orderCalled reachable_orderCalled).1,
   (chat_mute_and_point_of_order.1 orderCalled reachable_orderCalled).2.2,
   chat_mute_and_point_of_order.2 orderCalled
     (.step _ (.step _ (.new _ _ _) (by decide)) (by decide))⟩

set_option maxRecDepth 100000 in
/-- C21 fails as stated: the session `startedDuringOrder` is reachable, by
`addPlayer`, `callPointOfOrder` and `startGame`, and in it `chatMuted` is true
while `pointOfOrderActive` is true; the chat handler still lets messages
through. -/
theorem chat_mute_counterexample :
    Reachable startedDuringOrder ∧
    startedDuringOrder.chatMuted = true ∧
    startedDuringOrder.pointOfOrderActive = true ∧
    startedDuringOrder.pointOfOrderCaller = some "bob" ∧
    startedDuringOrder.gameActive = true ∧
    chatBlocked startedDuringOrder = false := by
  refine ⟨.step _ reachable_orderCalled trivial, by decide, by decide, by decide, by decide,
    by decide⟩

/-! ## Conservation with `removePlayer` -/

/-- A newly created session has one player and no card, and is not active. -/
theorem created_inv {g : Game} (h : Created g) :
    g.players.length ≤ 10 ∧ (g.players.map (fun p => p.name)).Nodup ∧
    (allCards g).Nodup ∧ g.gameActive = false ∧ allCards g = [] := by
  rcases h with ⟨roomCode, hostName, now, rfl⟩ | ⟨roomCode, hostName, now, socketId, rfl⟩
  · simp [Game.new, allCards, handCards]
  · simp [setHostSocket, Game.new, allCards, handCards]

/-- Every session reachable from a newly created one has at most ten players,
with pairwise distinct names, and holds pairwise distinct cards. -/
theorem reachableFromCreated_inv {g : Game} (h : ReachableFromCreated g) :
    g.players.length ≤ 10 ∧ (g.players.map (fun p => p.name)).Nodup ∧ (allCards g).Nodup := by
  induction h with
  | created hc =>
    obtain ⟨h1, h2, h3, _, _⟩ := created_inv hc
    exact ⟨h1, h2, h3⟩
  | step op _ ih =>
    obtain ⟨hlen, hnames, hn⟩ := ih
    obtain ⟨h1, h2, h3⟩ := step_effect _ op hlen hnames hn
    refine ⟨h1, h2, ?_⟩
    rcases h3 with ⟨hp, _⟩ | ⟨hp, _⟩ | ⟨_, hs⟩
    · exact hp.nodup_iff.mpr hn
    · exact hp.nodup_iff.mpr freshDeck_nodup
    · exact hs.nodup hn

/-- The sessions that keep their cards are reachable from a newly created one. -/
theorem CardsKept.reachable {g : Game} (h : CardsKept g) : ReachableFromCreated g := by
  induction h with
  | created hc => exact .created hc
  | step op _ _ ih => exact .step op ih
  | restart rnd hr _ => exact .step _ hr

/-- Removing a roster entry with an empty hand leaves the hands as they are. -/
theorem handCards_eraseIdx_of_hand_nil : ∀ (ps : List Player) (k : Nat) (p : Player),
    ps[k]? = some p → p.hand = [] → handCards (ps.eraseIdx k) = handCards ps
  | [], _, _, h, _ => by simp at h
  | q :: ps, 0, p, h, hp => by
    simp only [List.getElem?_cons_zero, Option.some.injEq] at h
    subst h
    simp [handCards_cons, hp]
  | q :: ps, k + 1, p, h, hp => by
    simp only [List.getElem?_cons_succ] at h
    simp only [List.eraseIdx_cons_succ, handCards_cons,
      handCards_eraseIdx_of_hand_nil ps k p h hp]

/-- When `removePlayer` removes nobody, or a player with an empty hand, the
cards of the session are what they were. -/
theorem allCards_removePlayer_of_removedHand_nil (g : Game) (socketId : Option String)
    (h : removedHand g socketId = []) :
    allCards (removePlayer g socketId).2 = allCards g := by
  cases hidx : g.players.findIdx? (fun p => p.socketId == socketId) with
  | none => simp only [removePlayer, hidx]
  | some idx =>
    cases hp : g.players[idx]? with
    | none => simp only [removePlayer, hidx, hp]
    | some player =>
      simp only [removedHand, hidx, hp] at h
      have he := handCards_eraseIdx_of_hand_nil g.players idx player hp h
      simp only [removePlayer, hidx, hp]
      split
      · simp only [allCards, handCards_makeFirstHost, he]
      · simp only [allCards, he]

/-- A successful `startGame` on a roster of at most ten players leaves a
rearrangement of the fresh deck in an active game. -/
theorem startGame_success_conserved (g : Game) (rnd : Nat → Nat)
    (h10 : g.players.length ≤ 10) (hs : (startGame g rnd).1.success = true) :
    (startGame g rnd).2.gameActive = true ∧ (allCards (startGame g rnd).2).Perm freshDeck := by
  have h2 : 2 ≤ g.players.length := by
    by_contra hlt
    have hfail : startGame g rnd = (Result.fail "Need at least 2 players", g) := by
      have : g.players.length < 2 := by omega
      simp [startGame, this]
    rw [hfail] at hs
    cases hs
  refine ⟨?_, allCards_startGame g rnd h2 h10⟩
  rw [startGame_eq g rnd h2 h10]

/-- A session that has kept its cards holds no card while it is not active, and
a rearrangement of the fresh deck once it is active. -/
theorem cardsKept_conserved {g : Game} (h : CardsKept g) :
    (g.gameActive = false ∧ allCards g = []) ∨
      (g.gameActive = true ∧ (allCards g).Perm freshDeck) := by
  induction h with
  | created hc =>
    obtain ⟨_, _, _, h4, h5⟩ := created_inv hc
    exact Or.inl ⟨h4, h5⟩
  | @step g op hg hok ih =>
    obtain ⟨hlen, hnames, hn⟩ := reachableFromCreated_inv hg.reachable
    by_cases hrem : ∃ socketId, op = .removePlayer socketId
    · obtain ⟨socketId, rfl⟩ := hrem
      obtain ⟨_, hsub, hact⟩ := removePlayer_effect g socketId
      rcases hok socketId rfl with hina | hnil
      · rcases ih with ⟨_, i2⟩ | ⟨i1, _⟩
        · left
          refine ⟨hact.trans hina, ?_⟩
          rw [i2] at hsub
          exact List.eq_nil_of_sublist_nil hsub
        · rw [hina] at i1
          cases i1
      · have he := allCards_removePlayer_of_removedHand_nil g socketId hnil
        rcases ih with ⟨i1, i2⟩ | ⟨i1, i2⟩
        · exact Or.inl ⟨hact.trans i1, he.trans i2⟩
        · right
          refine ⟨hact.trans i1, ?_⟩
          show (allCards (removePlayer g socketId).2).Perm freshDeck
          rw [he]
          exact i2
    · obtain ⟨_, _, h3⟩ := step_effect g op hlen hnames hn
      rcases h3 with ⟨hp, ha⟩ | ⟨hp, ha⟩ | ⟨hr, _⟩
      · rcases ih with ⟨i1, i2⟩ | ⟨i1, i2⟩
        · left
          refine ⟨by rw [ha, i1], ?_⟩
          rw [i2] at hp
          exact List.Perm.eq_nil hp
        · exact Or.inr ⟨by rw [ha, i1], hp.trans i2⟩
      · exact Or.inr ⟨ha, hp⟩
      · exfalso
        cases op with
        | removePlayer socketId => exact hrem ⟨socketId, rfl⟩
        | _ => cases hr
  | @restart g rnd hr hs =>
    obtain ⟨hlen, _, _⟩ := reachableFromCreated_inv hr
    exact Or.inr (startGame_success_conserved g rnd hlen hs)

/-- C1, amended.  In every session reached from a newly created session (as the
constructor returns it, or as `createParty` stores it with the host's socket
id) by a sequence of calls in which, since the last successful `startGame` or
since the creation, `removePlayer` has removed no player who holds cards: while
the game has not been started (`gameActive` is false) the deck, the discard pile
and all hands are empty; once it has been started (`gameActive` is true) the
deck, the discard pile and the hands together hold 52 cards, pairwise distinct,
exactly the cards of a suit of `SUITS` and a rank of `RANKS`. -/
theorem conservation_while_cards_kept (g : Game) (h : CardsKept g) :
    (g.gameActive = false → allCards g = [] ∧ totalCards g = 0) ∧
    (g.gameActive = true →
      totalCards g = 52 ∧ (allCards g).Nodup ∧ (allCards g).Perm freshDeck ∧
      ∀ c, c ∈ allCards g ↔ c.suit ∈ SUITS ∧ c.rank ∈ RANKS) := by
  rcases cardsKept_conserved h with ⟨h1, h2⟩ | ⟨h1, h2⟩
  · refine ⟨fun _ => ⟨h2, by rw [totalCards_eq, h2]; rfl⟩, fun ht => ?_⟩
    rw [h1] at ht
    cases ht
  · refine ⟨fun hf => ?_, fun _ => ⟨?_, ?_, h2, ?_⟩⟩
    · rw [h1] at hf
      cases hf
    · rw [totalCards_eq, h2.length_eq, freshDeck_length]
    · exact h2.nodup_iff.mpr freshDeck_nodup
    · intro c
      rw [h2.mem_iff, mem_freshDeck]

/-- The session `partyStarted` has kept its cards: carol was removed before the
start, when her hand was empty. -/
theorem cardsKept_partyStarted : CardsKept partyStarted :=
  .step _
    (.step _
      (.step _
        (.step _ (.created (Or.inr ⟨_, _, _, _, rfl⟩)) (fun _ h => by cases h))
        (fun _ h => by cases h))
      (fun _ _ => Or.inl (by decide)))
    (fun _ h => by cases h)

set_option maxRecDepth 100000 in
/-- The session `restarted` has kept its cards since its last `startGame`,
although bob left with four cards before it. -/
theorem cardsKept_restarted : CardsKept restarted :=
  .restart noSwap
    (.step _ (.step _ (.step _ (.step _ (.created (Or.inl ⟨_, _, _, rfl⟩)))))) (by decide)

set_option maxRecDepth 100000 in
/-- C1 as amended, at two sessions: a party in which a player left before the
start, and a game started again after a player had left with four cards. -/
theorem conservation_while_cards_kept_witness :
    (partyStarted.gameActive = true ∧ totalCards partyStarted = 52 ∧
      (allCards partyStarted).Nodup) ∧
    (restarted.gameActive = true ∧ totalCards restarted = 52) :=
  have ha : partyStarted.gameActive = true := by decide
  have hb : restarted.gameActive = true := by decide
  ⟨⟨ha, ((conservation_while_cards_kept partyStarted cardsKept_partyStarted).2 ha).1,
      ((conservation_while_cards_kept partyStarted cardsKept_partyStarted).2 ha).2.1⟩,
   ⟨hb, ((conservation_while_cards_kept restarted cardsKept_restarted).2 hb).1⟩⟩

end Mao
